import Mathlib

/-!
# Queue handlers of asynqmon (`queue_handlers.go`)

A shallow embedding of the six HTTP handlers for the queue endpoints:
list queues, get queue, delete queue, pause queue, resume queue and list
queue stats.

* The inspector (`*asynq.Inspector`) is a record of state-passing operations
  over an arbitrary client state `σ`; a call returns its result together with
  the next client state.
* A handler maps a request and a client state to the sequence of calls it makes
  on the `http.ResponseWriter` and the final client state.
* `Inspector.traced` instruments any inspector with the log of the calls made
  on it, which is how the call sequences of the handlers are observed.
-/

namespace Asynqmon

/-! ## Go values -/

/-- Go error values as the inspector builds them: `New addr text` is the value
of `errors.New(text)` allocated at `addr` (two such values are `==` only when
they are the same allocation), `Errorf text inner` is the value of
`fmt.Errorf` with one `%w` verb, whose message is `text` and which wraps
`inner`. -/
inductive GoError where
  | New (addr : Nat) (text : String)
  | Errorf (text : String) (inner : GoError)
  deriving DecidableEq, Repr

/-- The method `Error()`: the message of the error. -/
def GoError.Error : GoError → String
  | .New _ text => text
  | .Errorf text _ => text

/-- The function `errors.Is(err, target)`: `err` or an error of its chain of
wrapped errors is `==` to `target`. -/
def errorsIs : GoError → GoError → Bool
  | .New addr text, target => decide (GoError.New addr text = target)
  | .Errorf text inner, target =>
    decide (GoError.Errorf text inner = target) || errorsIs inner target

/-- The sentinel `asynq.ErrQueueNotFound`. -/
def ErrQueueNotFound : GoError := .New 1 "queue not found"

/-- The sentinel `asynq.ErrQueueNotEmpty`. -/
def ErrQueueNotEmpty : GoError := .New 2 "queue is not empty"

/-- The constant `http.StatusNoContent`. -/
def StatusNoContent : Nat := 204

/-- The constant `http.StatusBadRequest`. -/
def StatusBadRequest : Nat := 400

/-- The constant `http.StatusNotFound`. -/
def StatusNotFound : Nat := 404

/-- The constant `http.StatusInternalServerError`. -/
def StatusInternalServerError : Nat := 500

/-- A Go slice: the nil slice, or an allocated slice with its elements. -/
inductive GoSlice (α : Type) where
  | nil
  | mk (elems : List α)
  deriving DecidableEq, Repr

/-- The elements a `range` loop visits, in order. -/
def GoSlice.elems {α : Type} : GoSlice α → List α
  | .nil => []
  | .mk l => l

/-- The builtin `len`. -/
def GoSlice.len {α : Type} (s : GoSlice α) : Nat := s.elems.length

/-- The test `s == nil`. -/
def GoSlice.isNil {α : Type} : GoSlice α → Bool
  | .nil => true
  | .mk _ => false

/-- The builtin `make([]T, n)`, every element the zero value `zero`. -/
def GoSlice.make {α : Type} (zero : α) (n : Nat) : GoSlice α := .mk (List.replicate n zero)

/-- The builtin `append(s, x)`: the result is allocated, also for a nil `s`. -/
def GoSlice.append {α : Type} (s : GoSlice α) (x : α) : GoSlice α := .mk (s.elems ++ [x])

/-- How `encoding/json` writes a slice whose elements are written by `elem`:
the nil slice is `null`, an allocated slice is the array of its elements. -/
def GoSlice.toJSON {α : Type} (elem : α → String) : GoSlice α → String
  | .nil => "null"
  | .mk l => "[" ++ ",".intercalate (l.map elem) ++ "]"

/-- The assignment `s[i] = x` for an index in range (the loops of the handlers
only assign below `len(s)`). -/
def GoSlice.setIndex {α : Type} : GoSlice α → Nat → α → GoSlice α
  | .nil, _, _ => .nil
  | .mk l, i, x => .mk (l.set i x)

/-- A Go map: its entries, one for each key. -/
structure GoMap (κ ν : Type) where
  entries : List (κ × ν)
  deriving DecidableEq, Repr

/-- The entries after `m[k] = v`: the value of an existing key is replaced, a
new key gets a new entry. -/
def setEntries {κ ν : Type} [DecidableEq κ] (k : κ) (v : ν) : List (κ × ν) → List (κ × ν)
  | [] => [(k, v)]
  | e :: rest => if e.1 = k then (k, v) :: rest else e :: setEntries k v rest

/-- The value of an entry with key `k`, if there is one. -/
def getEntry {κ ν : Type} [DecidableEq κ] (k : κ) : List (κ × ν) → Option ν
  | [] => none
  | e :: rest => if e.1 = k then some e.2 else getEntry k rest

/-- The builtin `make(map[K]V)`. -/
def GoMap.make {κ ν : Type} : GoMap κ ν := ⟨[]⟩

/-- The assignment `m[k] = v`. -/
def GoMap.set {κ ν : Type} [DecidableEq κ] (m : GoMap κ ν) (k : κ) (v : ν) : GoMap κ ν :=
  ⟨setEntries k v m.entries⟩

/-- The lookup `v, ok := m[k]`. -/
def GoMap.get? {κ ν : Type} [DecidableEq κ] (m : GoMap κ ν) (k : κ) : Option ν :=
  getEntry k m.entries

/-- The keys of the map. -/
def GoMap.keys {κ ν : Type} (m : GoMap κ ν) : List κ := m.entries.map Prod.fst

/-- The expression `m[k]` on a `map[string]string`: the empty string when the
key is absent. -/
def GoMap.index (m : GoMap String String) (k : String) : String := (m.get? k).getD ""

/-! ## The collaborators of the handlers -/

/-- The request, as far as the handlers read it: the route variables that
`mux.Vars(r)` returns. -/
structure Request where
  Vars : GoMap String String

/-- The methods of `*asynq.Inspector` that the handlers call, over a client
state `σ`; `I` is `*asynq.QueueInfo` and `R` is `*asynq.DailyStats`. A method
returning `(value, error)` is a function to `Except`; a method returning
`error` is a function to `Option`, `none` being the nil error. -/
structure Inspector (σ I R : Type) where
  Queues : σ → Except GoError (GoSlice String) × σ
  GetQueueInfo : String → σ → Except GoError I × σ
  History : String → Int → σ → Except GoError (GoSlice R) × σ
  DeleteQueue : String → Bool → σ → Option GoError × σ
  PauseQueue : String → σ → Option GoError × σ
  UnpauseQueue : String → σ → Option GoError × σ

/-- Modelled from the spec: the methods of the repository's `transformer`
(its source file is not part of `src/`), which section 4.6 describes as pure
functions: snapshot to response shape (`S` is `*QueueStateSnapshot`), one
statistics record to response shape (`D` is `*DailyStats`), list of records to
list of shapes. -/
structure transformer (I R S D : Type) where
  toQueueStateSnapshot : I → S
  toDailyStats : R → D
  toDailyStatsList : GoSlice R → GoSlice D

/-- The values stored in a payload of type `map[string]interface{}`. A slice
of `*QueueStateSnapshot` holds pointers: `none` is the nil pointer. -/
inductive Value (S D : Type) where
  | QueueStateSnapshot (p : S)
  | QueueStateSnapshots (s : GoSlice (Option S))
  | DailyStatsSlice (s : GoSlice D)
  deriving DecidableEq, Repr

/-- What a handler hands to the JSON encoder: a `map[string]interface{}` or a
`ListQueueStatsResponse`. -/
inductive Payload (S D : Type) where
  | object (fields : GoMap String (Value S D))
  | ListQueueStatsResponse (Stats : GoMap String (GoSlice D))
  deriving DecidableEq, Repr

/-- The calls a handler makes on the `http.ResponseWriter`:
`http.Error(w, msg, code)`, which answers with status `code` and the text
`msg`; `w.WriteHeader(code)`, which answers with status `code` and no body;
`json.NewEncoder(w).Encode(payload)`, which writes the payload as the body of
a response with status 200. -/
inductive WriterOp (S D : Type) where
  | httpError (msg : String) (code : Nat)
  | WriteHeader (code : Nat)
  | Encode (payload : Payload S D)
  deriving DecidableEq, Repr

/-- The calls on an inspector, as a log records them. -/
inductive Call where
  | Queues
  | GetQueueInfo (qname : String)
  | History (qname : String) (n : Int)
  | DeleteQueue (qname : String) (force : Bool)
  | PauseQueue (qname : String)
  | UnpauseQueue (qname : String)
  deriving DecidableEq, Repr

/-- The inspector `insp` with a log: every call does what it does on `insp`
and is appended to the log. -/
def Inspector.traced {σ I R : Type} (insp : Inspector σ I R) :
    Inspector (σ × List Call) I R where
  Queues := fun w => ((insp.Queues w.1).1, ((insp.Queues w.1).2, w.2 ++ [Call.Queues]))
  GetQueueInfo := fun q w =>
    ((insp.GetQueueInfo q w.1).1, ((insp.GetQueueInfo q w.1).2, w.2 ++ [Call.GetQueueInfo q]))
  History := fun q n w =>
    ((insp.History q n w.1).1, ((insp.History q n w.1).2, w.2 ++ [Call.History q n]))
  DeleteQueue := fun q f w =>
    ((insp.DeleteQueue q f w.1).1, ((insp.DeleteQueue q f w.1).2, w.2 ++ [Call.DeleteQueue q f]))
  PauseQueue := fun q w =>
    ((insp.PauseQueue q w.1).1, ((insp.PauseQueue q w.1).2, w.2 ++ [Call.PauseQueue q]))
  UnpauseQueue := fun q w =>
    ((insp.UnpauseQueue q w.1).1, ((insp.UnpauseQueue q w.1).2, w.2 ++ [Call.UnpauseQueue q]))

/-! ## The handlers -/

section Handlers

variable {σ I R S D : Type}

/-- The loop of `newListQueuesHandlerFunc` from index `i` on: for each
remaining name, `GetQueueInfo`; an error ends the loop, a result is stored at
`snapshots[i]`. -/
def listQueuesLoop (inspector : Inspector σ I R) (t : transformer I R S D) :
    Nat → List String → GoSlice (Option S) → σ → Except GoError (GoSlice (Option S)) × σ
  | _, [], snapshots, s => (.ok snapshots, s)
  | i, qname :: rest, snapshots, s =>
    match inspector.GetQueueInfo qname s with
    | (.error err, s1) => (.error err, s1)
    | (.ok qinfo, s1) =>
      listQueuesLoop inspector t (i + 1) rest
        (snapshots.setIndex i (some (t.toQueueStateSnapshot qinfo))) s1

/-- The handler of `newListQueuesHandlerFunc`. -/
def newListQueuesHandlerFunc (inspector : Inspector σ I R) (t : transformer I R S D)
    (_r : Request) (s : σ) : List (WriterOp S D) × σ :=
  match inspector.Queues s with
  | (.error err, s1) => ([.httpError err.Error StatusInternalServerError], s1)
  | (.ok qnames, s1) =>
    match listQueuesLoop inspector t 0 qnames.elems (GoSlice.make none qnames.len) s1 with
    | (.error err, s2) => ([.httpError err.Error StatusInternalServerError], s2)
    | (.ok snapshots, s2) =>
      ([.Encode (.object (GoMap.make.set "queues" (.QueueStateSnapshots snapshots)))], s2)

/-- The loop of `newGetQueueHandlerFunc`: each record is transformed and
appended to `dailyStats`. -/
def dailyStatsLoop (t : transformer I R S D) : List R → GoSlice D → GoSlice D
  | [], dailyStats => dailyStats
  | s :: rest, dailyStats => dailyStatsLoop t rest (dailyStats.append (t.toDailyStats s))

/-- The handler of `newGetQueueHandlerFunc`. -/
def newGetQueueHandlerFunc (inspector : Inspector σ I R) (t : transformer I R S D)
    (r : Request) (s : σ) : List (WriterOp S D) × σ :=
  let qname := r.Vars.index "qname"
  let payload : GoMap String (Value S D) := GoMap.make
  match inspector.GetQueueInfo qname s with
  | (.error err, s1) => ([.httpError err.Error StatusInternalServerError], s1)
  | (.ok qinfo, s1) =>
    let payload := payload.set "current" (.QueueStateSnapshot (t.toQueueStateSnapshot qinfo))
    match inspector.History qname 10 s1 with
    | (.error err, s2) => ([.httpError err.Error StatusInternalServerError], s2)
    | (.ok data, s2) =>
      let dailyStats := dailyStatsLoop t data.elems .nil
      let payload := payload.set "history" (.DailyStatsSlice dailyStats)
      ([.Encode (.object payload)], s2)

/-- The handler of `newDeleteQueueHandlerFunc`. -/
def newDeleteQueueHandlerFunc (inspector : Inspector σ I R) (_t : transformer I R S D)
    (r : Request) (s : σ) : List (WriterOp S D) × σ :=
  let qname := r.Vars.index "qname"
  match inspector.DeleteQueue qname false s with
  | (some err, s1) =>
    if errorsIs err ErrQueueNotFound then
      ([.httpError err.Error StatusNotFound], s1)
    else if errorsIs err ErrQueueNotEmpty then
      ([.httpError err.Error StatusBadRequest], s1)
    else
      ([.httpError err.Error StatusInternalServerError], s1)
  | (none, s1) => ([.WriteHeader StatusNoContent], s1)

/-- The handler of `newPauseQueueHandlerFunc`. -/
def newPauseQueueHandlerFunc (inspector : Inspector σ I R)
    (r : Request) (s : σ) : List (WriterOp S D) × σ :=
  let qname := r.Vars.index "qname"
  match inspector.PauseQueue qname s with
  | (some err, s1) => ([.httpError err.Error StatusInternalServerError], s1)
  | (none, s1) => ([.WriteHeader StatusNoContent], s1)

/-- The handler of `newResumeQueueHandlerFunc`. -/
def newResumeQueueHandlerFunc (inspector : Inspector σ I R)
    (r : Request) (s : σ) : List (WriterOp S D) × σ :=
  let qname := r.Vars.index "qname"
  match inspector.UnpauseQueue qname s with
  | (some err, s1) => ([.httpError err.Error StatusInternalServerError], s1)
  | (none, s1) => ([.WriteHeader StatusNoContent], s1)

/-- The constant `numdays` of `newListQueueStatsHandlerFunc`. -/
def numdays : Int := 90

/-- The loop of `newListQueueStatsHandlerFunc`: for each name, `History` for
`numdays` days; an error ends the loop, a result is transformed and stored
under the name. -/
def listQueueStatsLoop (inspector : Inspector σ I R) (t : transformer I R S D) :
    List String → GoMap String (GoSlice D) → σ → Except GoError (GoMap String (GoSlice D)) × σ
  | [], stats, s => (.ok stats, s)
  | qname :: rest, stats, s =>
    match inspector.History qname numdays s with
    | (.error err, s1) => (.error err, s1)
    | (.ok st, s1) =>
      listQueueStatsLoop inspector t rest (stats.set qname (t.toDailyStatsList st)) s1

/-- The handler of `newListQueueStatsHandlerFunc`; `jsonEncode` is the result
of `json.NewEncoder(w).Encode`, the only encoder result a handler reads. -/
def newListQueueStatsHandlerFunc (inspector : Inspector σ I R) (t : transformer I R S D)
    (jsonEncode : Payload S D → Option GoError)
    (_r : Request) (s : σ) : List (WriterOp S D) × σ :=
  match inspector.Queues s with
  | (.error err, s1) => ([.httpError err.Error StatusInternalServerError], s1)
  | (.ok qnames, s1) =>
    match listQueueStatsLoop inspector t qnames.elems GoMap.make s1 with
    | (.error err, s2) => ([.httpError err.Error StatusInternalServerError], s2)
    | (.ok stats, s2) =>
      let resp : Payload S D := .ListQueueStatsResponse stats
      match jsonEncode resp with
      | some err => ([.Encode resp, .httpError err.Error StatusInternalServerError], s2)
      | none => ([.Encode resp], s2)

end Handlers

/-! ## Client sessions -/

/-- The calls `call q` for the names `q` of a list, made one after the other
from client state `s`, all succeed: they return the results `rs`, in order,
and leave the client in state `s2`. -/
inductive Succeeds {σ α : Type} (call : String → σ → Except GoError α × σ) :
    List String → σ → List α → σ → Prop where
  | nil (s : σ) : Succeeds call [] s [] s
  | cons {q : String} {qs : List String} {s s1 s2 : σ} {a : α} {rs : List α} :
      call q s = (.ok a, s1) → Succeeds call qs s1 rs s2 →
      Succeeds call (q :: qs) s (a :: rs) s2

/-- The inspector refuses to delete a non-empty queue without force: where
`size s q` is the number of tasks of queue `q` in client state `s`, a call
`DeleteQueue(q, false)` on a queue with `n > 0` tasks returns an error that is
queue-not-empty and leaves the queue with its `n` tasks. -/
def RefusesNonEmpty {σ I R : Type} (insp : Inspector σ I R)
    (size : σ → String → Option Nat) : Prop :=
  ∀ (q : String) (s : σ) (n : Nat), size s q = some n → 0 < n →
    ∃ err, (insp.DeleteQueue q false s).1 = some err ∧
      errorsIs err ErrQueueNotEmpty = true ∧
      size (insp.DeleteQueue q false s).2 q = some n

/-! ## An inspector over a table of queues

A small client to instantiate the statements at concrete inputs. -/

/-- The state of the table client: whether the store answers, the names an
enumeration returns, and the existing queues with their number of tasks (also
the number of days of history the queue has). -/
structure Table where
  reachable : Bool
  listed : List String
  queues : List (String × Nat)
  deriving DecidableEq, Repr

/-- The error of a store that does not answer. -/
def errUnreachable : GoError := .New 7 "connection refused"

/-- The error of the table client for an unknown queue, wrapping the
sentinel. -/
def errNotFound : GoError := .Errorf "queue not found: queue" ErrQueueNotFound

/-- The error of the table client for a queue with tasks, wrapping the
sentinel. -/
def errNotEmpty : GoError := .Errorf "queue is not empty: queue" ErrQueueNotEmpty

/-- The table client. A queue info is the number of tasks, a history record is
the number of the day. -/
def tableInspector : Inspector Table Nat Nat where
  Queues := fun s =>
    if s.reachable then (.ok (.mk s.listed), s) else (.error errUnreachable, s)
  GetQueueInfo := fun q s =>
    if s.reachable then
      match getEntry q s.queues with
      | some n => (.ok n, s)
      | none => (.error errNotFound, s)
    else (.error errUnreachable, s)
  History := fun q n s =>
    if s.reachable then
      match getEntry q s.queues with
      | some k => (.ok (.mk ((List.range k).take n.toNat)), s)
      | none => (.error errNotFound, s)
    else (.error errUnreachable, s)
  DeleteQueue := fun q force s =>
    if s.reachable then
      match getEntry q s.queues with
      | some n =>
        if n ≠ 0 ∧ force = false then (some errNotEmpty, s)
        else (none, { s with queues := s.queues.filter (fun e => e.1 ≠ q) })
      | none => (some errNotFound, s)
    else (some errUnreachable, s)
  PauseQueue := fun q s =>
    if s.reachable then
      match getEntry q s.queues with
      | some _ => (none, s)
      | none => (some errNotFound, s)
    else (some errUnreachable, s)
  UnpauseQueue := fun q s =>
    if s.reachable then
      match getEntry q s.queues with
      | some _ => (none, s)
      | none => (some errNotFound, s)
    else (some errUnreachable, s)

/-- A transformer for the table client. -/
def tableTransformer : transformer Nat Nat Nat Nat where
  toQueueStateSnapshot := fun n => n + 100
  toDailyStats := fun d => d + 1
  toDailyStatsList := fun l => .mk (l.elems.map (fun d => d + 1))

/-- The store of the examples: two queues, both enumerated. -/
def tableTwo : Table := ⟨true, ["email", "image"], [("email", 3), ("image", 0)]⟩

/-- A store whose enumeration returns a name that is not a queue any more. -/
def tableStale : Table := ⟨true, ["email", "gone", "image"], [("email", 3), ("image", 0)]⟩

/-- A store that does not answer. -/
def tableDown : Table := ⟨false, ["email"], [("email", 3)]⟩

/-- A store whose enumeration returns a name twice. -/
def tableDup : Table := ⟨true, ["email", "image", "email"], [("email", 3), ("image", 0)]⟩

/-- A store with no enumerated queue and one queue without history. -/
def tableEmpty : Table := ⟨true, [], [("fresh", 0)]⟩

/-- An encoder that succeeds. -/
def encodeOk {S D : Type} : Payload S D → Option GoError := fun _ => none

/-- The request with the route variable `qname` set to `q`. -/
def requestFor (q : String) : Request := ⟨⟨[("qname", q)]⟩⟩

/-! ## Lemmas on the loops -/

section Lemmas

variable {σ I R S D α : Type}

theorem Succeeds.length_eq {call : String → σ → Except GoError α × σ}
    {qs : List String} {s s2 : σ} {rs : List α} (h : Succeeds call qs s rs s2) :
    rs.length = qs.length := by
  induction h with
  | nil s => rfl
  | cons _ _ ih => simp [ih]

theorem set_at_length (pre rest : List α) (a x : α) :
    (pre ++ a :: rest).set pre.length x = pre ++ x :: rest := by
  induction pre with
  | nil => rfl
  | cons b pre ih => simp [ih]

/-- When every retrieval succeeds, the loop fills the slots of the remaining
names, in order, and leaves the other slots as they are. -/
theorem listQueuesLoop_ok (insp : Inspector σ I R) (t : transformer I R S D)
    {names : List String} {s s2 : σ} {infos : List I}
    (h : Succeeds insp.GetQueueInfo names s infos s2) :
    ∀ (pre slots post : List (Option S)), slots.length = names.length →
      listQueuesLoop insp t pre.length names (.mk (pre ++ slots ++ post)) s
        = (.ok (.mk (pre ++ infos.map (fun x => some (t.toQueueStateSnapshot x)) ++ post)),
            s2) := by
  induction h with
  | nil s =>
    intro pre slots post hl
    have : slots = [] := List.length_eq_zero.mp hl
    subst this
    simp [listQueuesLoop]
  | @cons q qs s s1 s2 a rs hc _ ih =>
    intro pre slots post hl
    cases slots with
    | nil => simp at hl
    | cons sl slots =>
      simp only [List.length_cons, Nat.add_right_cancel_iff] at hl
      simp only [listQueuesLoop, hc, GoSlice.setIndex]
      have hset : (pre ++ (sl :: slots) ++ post).set pre.length
          (some (t.toQueueStateSnapshot a)) = (pre ++ [some (t.toQueueStateSnapshot a)])
            ++ slots ++ post := by
        rw [List.append_assoc, List.cons_append, set_at_length]
        simp
      rw [hset]
      have := ih (pre ++ [some (t.toQueueStateSnapshot a)]) slots post hl
      simp only [List.length_append, List.length_singleton] at this
      rw [this]
      simp

/-- The loop ends at the first retrieval that fails, with its error. -/
theorem listQueuesLoop_error (insp : Inspector σ I R) (t : transformer I R S D)
    {pre : List String} {s s2 s3 : σ} {infos : List I}
    (h : Succeeds insp.GetQueueInfo pre s infos s2) (q : String) (post : List String)
    (err : GoError) (hq : insp.GetQueueInfo q s2 = (.error err, s3)) :
    ∀ (i : Nat) (snaps : GoSlice (Option S)),
      listQueuesLoop insp t i (pre ++ q :: post) snaps s = (.error err, s3) := by
  induction h with
  | nil s =>
    intro i snaps
    simp [listQueuesLoop, hq]
  | cons hc _ ih =>
    intro i snaps
    simp only [List.cons_append, listQueuesLoop, hc]
    exact ih hq _ _

/-- A loop that ends without an error made every retrieval, with success. -/
theorem listQueuesLoop_ok_inv (insp : Inspector σ I R) (t : transformer I R S D) :
    ∀ (names : List String) (i : Nat) (snaps res : GoSlice (Option S)) (s s2 : σ),
      listQueuesLoop insp t i names snaps s = (.ok res, s2) →
      ∃ infos, Succeeds insp.GetQueueInfo names s infos s2 := by
  intro names
  induction names with
  | nil =>
    intro i snaps res s s2 h
    simp only [listQueuesLoop, Prod.mk.injEq] at h
    obtain ⟨_, rfl⟩ := h
    exact ⟨[], Succeeds.nil s⟩
  | cons q qs ih =>
    intro i snaps res s s2 h
    rcases hc : insp.GetQueueInfo q s with ⟨r, s1⟩
    cases r with
    | error e => simp [listQueuesLoop, hc] at h
    | ok a =>
      simp only [listQueuesLoop, hc] at h
      obtain ⟨infos, hi⟩ := ih _ _ _ _ _ h
      exact ⟨a :: infos, Succeeds.cons hc hi⟩

/-! ### Errors -/

/-- The chain of an error ends in one `errors.New` value: an error that is
queue-not-found is not queue-not-empty. -/
theorem errorsIs_notFound_notEmpty (e : GoError) (h : errorsIs e ErrQueueNotFound = true) :
    errorsIs e ErrQueueNotEmpty = false := by
  induction e with
  | New addr text =>
    simp only [errorsIs, ErrQueueNotFound, decide_eq_true_eq] at h
    simp only [errorsIs, ErrQueueNotEmpty, decide_eq_false_iff_not]
    intro h2
    rw [h] at h2
    simp at h2
  | Errorf text inner ih =>
    simp only [errorsIs, ErrQueueNotFound, Bool.or_eq_true, decide_eq_true_eq, reduceCtorEq,
      false_or] at h
    simp only [errorsIs, ErrQueueNotEmpty, reduceCtorEq, decide_False, Bool.false_or]
    exact ih h

/-! ### Maps -/

theorem getEntry_setEntries_self {κ ν : Type} [DecidableEq κ] (k : κ) (v : ν)
    (l : List (κ × ν)) : getEntry k (setEntries k v l) = some v := by
  induction l with
  | nil => simp [setEntries, getEntry]
  | cons e rest ih =>
    by_cases h : e.1 = k
    · simp [setEntries, getEntry, h]
    · simp [setEntries, getEntry, h, ih]

theorem getEntry_setEntries_ne {κ ν : Type} [DecidableEq κ] (k k2 : κ) (v : ν)
    (l : List (κ × ν)) (hne : k2 ≠ k) : getEntry k2 (setEntries k v l) = getEntry k2 l := by
  induction l with
  | nil => simp [setEntries, getEntry, hne.symm]
  | cons e rest ih =>
    by_cases h : e.1 = k
    · have h2 : ¬ e.1 = k2 := fun h3 => hne (h3.symm.trans h)
      simp [setEntries, getEntry, h, h2, hne.symm]
    · by_cases h2 : e.1 = k2
      · simp [setEntries, getEntry, h, h2, hne]
      · simp [setEntries, getEntry, h, h2, ih]

theorem mem_keys_setEntries {κ ν : Type} [DecidableEq κ] (k k2 : κ) (v : ν)
    (l : List (κ × ν)) :
    k2 ∈ (setEntries k v l).map Prod.fst ↔ k2 = k ∨ k2 ∈ l.map Prod.fst := by
  induction l with
  | nil => simp [setEntries]
  | cons e rest ih =>
    by_cases h : e.1 = k
    · simp only [setEntries, h, if_true, List.map_cons, List.mem_cons]
      tauto
    · simp only [setEntries, h, if_false, List.map_cons, List.mem_cons, ih]
      tauto

theorem nodup_keys_setEntries {κ ν : Type} [DecidableEq κ] (k : κ) (v : ν)
    (l : List (κ × ν)) (hl : (l.map Prod.fst).Nodup) :
    ((setEntries k v l).map Prod.fst).Nodup := by
  induction l with
  | nil => simp [setEntries]
  | cons e rest ih =>
    simp only [List.map_cons, List.nodup_cons] at hl
    by_cases h : e.1 = k
    · simp only [setEntries, h, if_true, List.map_cons, List.nodup_cons]
      exact ⟨h ▸ hl.1, hl.2⟩
    · simp only [setEntries, h, if_false, List.map_cons, List.nodup_cons]
      refine ⟨?_, ih hl.2⟩
      rw [mem_keys_setEntries]
      rintro (h2 | h2)
      · exact h h2
      · exact hl.1 h2

/-- The map after the assignments `m[q] = toDailyStatsList(h)` for the names
`q` and the histories `h` of two lists, in order. -/
theorem foldl_set_keys (t : transformer I R S D) :
    ∀ (names : List String) (hs : List (GoSlice R)) (m : GoMap String (GoSlice D)),
      hs.length = names.length → ∀ k,
      k ∈ ((names.zip hs).foldl (fun acc p => acc.set p.1 (t.toDailyStatsList p.2)) m).keys
        ↔ k ∈ m.keys ∨ k ∈ names := by
  intro names
  induction names with
  | nil => intro hs m _ k; simp
  | cons q qs ih =>
    intro hs m hl k
    cases hs with
    | nil => simp at hl
    | cons h hs =>
      simp only [List.length_cons, Nat.add_right_cancel_iff] at hl
      simp only [List.zip_cons_cons, List.foldl_cons, List.mem_cons]
      rw [ih hs _ hl k]
      simp only [GoMap.keys, GoMap.set, mem_keys_setEntries]
      tauto

theorem foldl_set_nodup (t : transformer I R S D) :
    ∀ (ps : List (String × GoSlice R)) (m : GoMap String (GoSlice D)),
      m.keys.Nodup →
      (ps.foldl (fun acc p => acc.set p.1 (t.toDailyStatsList p.2)) m).keys.Nodup := by
  intro ps
  induction ps with
  | nil => intro m hm; simpa using hm
  | cons p ps ih =>
    intro m hm
    simp only [List.foldl_cons]
    exact ih _ (nodup_keys_setEntries _ _ _ hm)

theorem foldl_set_get_other (t : transformer I R S D) :
    ∀ (ps : List (String × GoSlice R)) (m : GoMap String (GoSlice D)) (k : String),
      k ∉ ps.map Prod.fst →
      (ps.foldl (fun acc p => acc.set p.1 (t.toDailyStatsList p.2)) m).get? k = m.get? k := by
  intro ps
  induction ps with
  | nil => intro m k _; rfl
  | cons p ps ih =>
    intro m k hk
    simp only [List.map_cons, List.mem_cons, not_or] at hk
    simp only [List.foldl_cons]
    rw [ih _ k hk.2]
    exact getEntry_setEntries_ne _ _ _ _ hk.1

/-- The value under a name is the transformed history of the last assignment
for that name. -/
theorem foldl_set_get_last (t : transformer I R S D)
    (pre post : List String) (q : String) (hpre hpost : List (GoSlice R)) (h : GoSlice R)
    (m : GoMap String (GoSlice D)) (hlen : hpre.length = pre.length)
    (hlen2 : hpost.length = post.length) (hq : q ∉ post) :
    (((pre ++ q :: post).zip (hpre ++ h :: hpost)).foldl
        (fun acc p => acc.set p.1 (t.toDailyStatsList p.2)) m).get? q
      = some (t.toDailyStatsList h) := by
  rw [List.zip_append hlen.symm, List.foldl_append, List.zip_cons_cons, List.foldl_cons]
  rw [foldl_set_get_other]
  · exact getEntry_setEntries_self _ _ _
  · intro hmem
    apply hq
    rw [List.map_fst_zip] at hmem
    · exact hmem
    · omega

/-! ### The loop of get queue -/

theorem dailyStatsLoop_elems (t : transformer I R S D) :
    ∀ (data : List R) (acc : GoSlice D),
      (dailyStatsLoop t data acc).elems = acc.elems ++ data.map t.toDailyStats := by
  intro data
  induction data with
  | nil => intro acc; simp [dailyStatsLoop]
  | cons x rest ih =>
    intro acc
    simp only [dailyStatsLoop]
    rw [ih]
    simp [GoSlice.append, GoSlice.elems]

theorem dailyStatsLoop_isNil (t : transformer I R S D) :
    ∀ (data : List R) (acc : GoSlice D),
      (dailyStatsLoop t data acc).isNil = (acc.isNil && data.isEmpty) := by
  intro data
  induction data with
  | nil => intro acc; simp [dailyStatsLoop]
  | cons x rest ih =>
    intro acc
    simp only [dailyStatsLoop]
    rw [ih]
    simp [GoSlice.append, GoSlice.isNil]

/-! ### The loop of list queue stats -/

theorem listQueueStatsLoop_ok (insp : Inspector σ I R) (t : transformer I R S D)
    {names : List String} {s s2 : σ} {hs : List (GoSlice R)}
    (h : Succeeds (fun q => insp.History q numdays) names s hs s2) :
    ∀ (m : GoMap String (GoSlice D)),
      listQueueStatsLoop insp t names m s
        = (.ok ((names.zip hs).foldl (fun acc p => acc.set p.1 (t.toDailyStatsList p.2)) m),
            s2) := by
  induction h with
  | nil s => intro m; simp [listQueueStatsLoop]
  | @cons q qs s s1 s2 a rs hc _ ih =>
    intro m
    simp only at hc
    simp only [listQueueStatsLoop, hc, List.zip_cons_cons, List.foldl_cons]
    exact ih _

theorem listQueueStatsLoop_error (insp : Inspector σ I R) (t : transformer I R S D)
    {pre : List String} {s s2 s3 : σ} {hs : List (GoSlice R)}
    (h : Succeeds (fun q => insp.History q numdays) pre s hs s2) (q : String)
    (post : List String) (err : GoError) (hq : insp.History q numdays s2 = (.error err, s3)) :
    ∀ (m : GoMap String (GoSlice D)),
      listQueueStatsLoop insp t (pre ++ q :: post) m s = (.error err, s3) := by
  induction h with
  | nil s =>
    intro m
    simp [listQueueStatsLoop, hq]
  | cons hc _ ih =>
    intro m
    simp only at hc
    simp only [List.cons_append, listQueueStatsLoop, hc]
    exact ih hq _

theorem listQueueStatsLoop_ok_inv (insp : Inspector σ I R) (t : transformer I R S D) :
    ∀ (names : List String) (m res : GoMap String (GoSlice D)) (s s2 : σ),
      listQueueStatsLoop insp t names m s = (.ok res, s2) →
      ∃ hs, Succeeds (fun q => insp.History q numdays) names s hs s2 := by
  intro names
  induction names with
  | nil =>
    intro m res s s2 h
    simp only [listQueueStatsLoop, Prod.mk.injEq] at h
    obtain ⟨_, rfl⟩ := h
    exact ⟨[], Succeeds.nil s⟩
  | cons q qs ih =>
    intro m res s s2 h
    rcases hc : insp.History q numdays s with ⟨r, s1⟩
    cases r with
    | error e => simp [listQueueStatsLoop, hc] at h
    | ok a =>
      simp only [listQueueStatsLoop, hc] at h
      obtain ⟨hs, hi⟩ := ih _ _ _ _ h
      exact ⟨a :: hs, Succeeds.cons hc hi⟩

/-! ### Sessions of the inspector with a log -/

/-- A successful session of retrievals is the same session on the inspector
with a log, which gains one entry for each retrieval, in order. -/
theorem Succeeds.traced_GetQueueInfo (insp : Inspector σ I R)
    {names : List String} {s s2 : σ} {infos : List I}
    (h : Succeeds insp.GetQueueInfo names s infos s2) :
    ∀ (log : List Call), Succeeds insp.traced.GetQueueInfo names (s, log) infos
      (s2, log ++ names.map Call.GetQueueInfo) := by
  induction h with
  | nil s => intro log; simpa using Succeeds.nil (s, log)
  | @cons q qs s s1 s2 a rs hc _ ih =>
    intro log
    have h1 : insp.traced.GetQueueInfo q (s, log)
        = (.ok a, (s1, log ++ [Call.GetQueueInfo q])) := by
      simp [Inspector.traced, hc]
    have h2 := ih (log ++ [Call.GetQueueInfo q])
    simp only [List.append_assoc, List.singleton_append] at h2
    exact Succeeds.cons h1 h2

theorem Succeeds.traced_History (insp : Inspector σ I R)
    {names : List String} {s s2 : σ} {hs : List (GoSlice R)}
    (h : Succeeds (fun q => insp.History q numdays) names s hs s2) :
    ∀ (log : List Call), Succeeds (fun q => insp.traced.History q numdays) names (s, log) hs
      (s2, log ++ names.map (fun q => Call.History q numdays)) := by
  induction h with
  | nil s => intro log; simpa using Succeeds.nil (s, log)
  | @cons q qs s s1 s2 a rs hc _ ih =>
    intro log
    simp only at hc
    have h1 : (fun q => insp.traced.History q numdays) q (s, log)
        = (.ok a, (s1, log ++ [Call.History q numdays])) := by
      simp [Inspector.traced, hc]
    have h2 := ih (log ++ [Call.History q numdays])
    simp only [List.append_assoc, List.singleton_append] at h2
    exact Succeeds.cons h1 h2

/-- A session of calls either succeeds throughout or has a first call that
fails, after a successful session on the names before it. -/
theorem Succeeds.or_first_failure (call : String → σ → Except GoError α × σ) :
    ∀ (names : List String) (s : σ),
      (∃ rs s2, Succeeds call names s rs s2) ∨
      (∃ pre q post rs s2 err s3, names = pre ++ q :: post ∧ Succeeds call pre s rs s2 ∧
        call q s2 = (.error err, s3)) := by
  intro names
  induction names with
  | nil => intro s; exact Or.inl ⟨[], s, Succeeds.nil s⟩
  | cons q qs ih =>
    intro s
    rcases hc : call q s with ⟨r, s1⟩
    cases r with
    | error e => exact Or.inr ⟨[], q, qs, [], s, e, s1, rfl, Succeeds.nil s, hc⟩
    | ok a =>
      rcases ih s1 with ⟨rs, s2, h⟩ | ⟨pre, q2, post, rs, s2, err, s3, hn, h, hf⟩
      · exact Or.inl ⟨a :: rs, s2, Succeeds.cons hc h⟩
      · exact Or.inr ⟨q :: pre, q2, post, a :: rs, s2, err, s3, by simp [hn],
          Succeeds.cons hc h, hf⟩

/-! ### The inspector with a log behaves as the inspector -/

theorem listQueuesLoop_traced (insp : Inspector σ I R) (t : transformer I R S D) :
    ∀ (names : List String) (i : Nat) (snaps : GoSlice (Option S)) (s : σ) (log : List Call),
      (listQueuesLoop insp.traced t i names snaps (s, log)).1
          = (listQueuesLoop insp t i names snaps s).1 ∧
      (listQueuesLoop insp.traced t i names snaps (s, log)).2.1
          = (listQueuesLoop insp t i names snaps s).2 := by
  intro names
  induction names with
  | nil => intro i snaps s log; simp [listQueuesLoop]
  | cons q qs ih =>
    intro i snaps s log
    rcases hc : insp.GetQueueInfo q s with ⟨res, s1⟩
    have h1 : insp.traced.GetQueueInfo q (s, log)
        = (res, (s1, log ++ [Call.GetQueueInfo q])) := by
      simp [Inspector.traced, hc]
    cases res with
    | error e => simp [listQueuesLoop, hc, h1]
    | ok a =>
      simp only [listQueuesLoop, hc, h1]
      exact ih _ _ _ _

theorem listQueueStatsLoop_traced (insp : Inspector σ I R) (t : transformer I R S D) :
    ∀ (names : List String) (m : GoMap String (GoSlice D)) (s : σ) (log : List Call),
      (listQueueStatsLoop insp.traced t names m (s, log)).1
          = (listQueueStatsLoop insp t names m s).1 ∧
      (listQueueStatsLoop insp.traced t names m (s, log)).2.1
          = (listQueueStatsLoop insp t names m s).2 := by
  intro names
  induction names with
  | nil => intro m s log; simp [listQueueStatsLoop]
  | cons q qs ih =>
    intro m s log
    rcases hc : insp.History q numdays s with ⟨res, s1⟩
    have h1 : insp.traced.History q numdays (s, log)
        = (res, (s1, log ++ [Call.History q numdays])) := by
      simp [Inspector.traced, hc]
    cases res with
    | error e => simp [listQueueStatsLoop, hc, h1]
    | ok a =>
      simp only [listQueueStatsLoop, hc, h1]
      exact ih _ _ _

/-- The table client refuses to delete a non-empty queue without force. -/
theorem tableInspector_refusesNonEmpty :
    RefusesNonEmpty tableInspector
      (fun s q => if s.reachable then getEntry q s.queues else none) := by
  intro q s n hsize hn
  cases hr : s.reachable with
  | false => simp [hr] at hsize
  | true =>
    simp only [hr, if_true] at hsize
    refine ⟨errNotEmpty, ?_, by decide, ?_⟩
    · simp only [tableInspector, hr, if_true, hsize]
      have : n ≠ 0 := by omega
      simp [this]
    · simp only [tableInspector, hr, if_true, hsize]
      have : n ≠ 0 := by omega
      simp [this, hr, hsize]

/-! ### The list handlers -/

theorem Succeeds.getElem? {call : String → σ → Except GoError α × σ}
    {qs : List String} {s s2 : σ} {rs : List α} (h : Succeeds call qs s rs s2) :
    ∀ (i : Nat) (q : String), qs[i]? = some q →
      ∃ a sa sb, rs[i]? = some a ∧ call q sa = (.ok a, sb) := by
  induction h with
  | nil s => intro i q hq; simp at hq
  | @cons q0 qs s s1 s2 a rs hc _ ih =>
    intro i q hq
    cases i with
    | zero =>
      simp only [List.getElem?_cons_zero, Option.some.injEq] at hq
      subst hq
      exact ⟨a, s, s1, by simp, hc⟩
    | succ i =>
      simp only [List.getElem?_cons_succ] at hq
      obtain ⟨b, sa, sb, hb, hcall⟩ := ih i q hq
      exact ⟨b, sa, sb, by simpa using hb, hcall⟩

/-- List queues when every call succeeds: one payload whose field "queues" is
the allocated slice of the transformed snapshots, in the order of the
retrievals. -/
theorem newListQueuesHandlerFunc_ok (insp : Inspector σ I R) (t : transformer I R S D)
    (r : Request) {s s1 s2 : σ} {names : GoSlice String} {infos : List I}
    (hq : insp.Queues s = (.ok names, s1))
    (hrun : Succeeds insp.GetQueueInfo names.elems s1 infos s2) :
    newListQueuesHandlerFunc insp t r s
      = ([WriterOp.Encode (.object ⟨[("queues", .QueueStateSnapshots
            (.mk (infos.map (fun x => some (t.toQueueStateSnapshot x)))))]⟩)], s2) := by
  have h := listQueuesLoop_ok insp t hrun [] (List.replicate names.len none) []
    (by simp [GoSlice.len])
  simp only [List.length_nil, List.nil_append, List.append_nil] at h
  simp only [newListQueuesHandlerFunc, hq, GoSlice.make, h]
  simp [GoMap.set, GoMap.make, setEntries]

theorem newListQueuesHandlerFunc_queues_error (insp : Inspector σ I R)
    (t : transformer I R S D) (r : Request) {s s1 : σ} {err : GoError}
    (hq : insp.Queues s = (.error err, s1)) :
    newListQueuesHandlerFunc insp t r s = ([WriterOp.httpError err.Error 500], s1) := by
  simp [newListQueuesHandlerFunc, hq, StatusInternalServerError]

theorem newListQueuesHandlerFunc_info_error (insp : Inspector σ I R)
    (t : transformer I R S D) (r : Request) {s s1 s2 s3 : σ} {names : GoSlice String}
    {pre post : List String} {q : String} {infos : List I} {err : GoError}
    (hq : insp.Queues s = (.ok names, s1)) (hn : names.elems = pre ++ q :: post)
    (hrun : Succeeds insp.GetQueueInfo pre s1 infos s2)
    (hf : insp.GetQueueInfo q s2 = (.error err, s3)) :
    newListQueuesHandlerFunc insp t r s = ([WriterOp.httpError err.Error 500], s3) := by
  have h := listQueuesLoop_error insp t hrun q post err hf 0 (GoSlice.make none names.len)
  simp [newListQueuesHandlerFunc, hq, hn, h, StatusInternalServerError]

theorem newListQueuesHandlerFunc_encode_inv (insp : Inspector σ I R)
    (t : transformer I R S D) (r : Request) (s : σ) (p : Payload S D)
    (hp : WriterOp.Encode p ∈ (newListQueuesHandlerFunc insp t r s).1) :
    ∃ names s1 infos, insp.Queues s = (.ok names, s1) ∧
      Succeeds insp.GetQueueInfo names.elems s1 infos (newListQueuesHandlerFunc insp t r s).2 := by
  rcases hq : insp.Queues s with ⟨res, s1⟩
  cases res with
  | error e => simp [newListQueuesHandlerFunc, hq] at hp
  | ok names =>
    rcases hl : listQueuesLoop insp t 0 names.elems (GoSlice.make none names.len) s1
      with ⟨res2, s2⟩
    cases res2 with
    | error e => simp [newListQueuesHandlerFunc, hq, hl] at hp
    | ok snaps =>
      obtain ⟨infos, hi⟩ := listQueuesLoop_ok_inv insp t _ _ _ _ _ _ hl
      refine ⟨names, s1, infos, rfl, ?_⟩
      simpa [newListQueuesHandlerFunc, hq, hl] using hi

/-- List queue stats when every call succeeds: the payload holds the map after
the assignments for the names and the histories, in order; what follows the
payload depends on the encoder only. -/
theorem newListQueueStatsHandlerFunc_ok (insp : Inspector σ I R) (t : transformer I R S D)
    (jsonEncode : Payload S D → Option GoError)
    (r : Request) {s s1 s2 : σ} {names : GoSlice String} {hs : List (GoSlice R)}
    (hq : insp.Queues s = (.ok names, s1))
    (hrun : Succeeds (fun q => insp.History q numdays) names.elems s1 hs s2) :
    newListQueueStatsHandlerFunc insp t jsonEncode r s
      = (WriterOp.Encode (.ListQueueStatsResponse
            ((names.elems.zip hs).foldl (fun acc p => acc.set p.1 (t.toDailyStatsList p.2))
              GoMap.make)) ::
          (match jsonEncode (.ListQueueStatsResponse
              ((names.elems.zip hs).foldl (fun acc p => acc.set p.1 (t.toDailyStatsList p.2))
                GoMap.make)) with
            | some err => [WriterOp.httpError err.Error 500]
            | none => []), s2) := by
  have h := listQueueStatsLoop_ok insp t hrun GoMap.make
  simp only [newListQueueStatsHandlerFunc, hq, h]
  split <;> simp [StatusInternalServerError]

theorem newListQueueStatsHandlerFunc_queues_error (insp : Inspector σ I R)
    (t : transformer I R S D) (jsonEncode : Payload S D → Option GoError)
    (r : Request) {s s1 : σ} {err : GoError}
    (hq : insp.Queues s = (.error err, s1)) :
    newListQueueStatsHandlerFunc insp t jsonEncode r s
      = ([WriterOp.httpError err.Error 500], s1) := by
  simp [newListQueueStatsHandlerFunc, hq, StatusInternalServerError]

theorem newListQueueStatsHandlerFunc_history_error (insp : Inspector σ I R)
    (t : transformer I R S D) (jsonEncode : Payload S D → Option GoError)
    (r : Request) {s s1 s2 s3 : σ} {names : GoSlice String}
    {pre post : List String} {q : String} {hs : List (GoSlice R)} {err : GoError}
    (hq : insp.Queues s = (.ok names, s1)) (hn : names.elems = pre ++ q :: post)
    (hrun : Succeeds (fun q => insp.History q numdays) pre s1 hs s2)
    (hf : insp.History q numdays s2 = (.error err, s3)) :
    newListQueueStatsHandlerFunc insp t jsonEncode r s
      = ([WriterOp.httpError err.Error 500], s3) := by
  have h := listQueueStatsLoop_error insp t hrun q post err hf GoMap.make
  simp [newListQueueStatsHandlerFunc, hq, hn, h, StatusInternalServerError]

theorem newListQueueStatsHandlerFunc_encode_inv (insp : Inspector σ I R)
    (t : transformer I R S D) (jsonEncode : Payload S D → Option GoError)
    (r : Request) (s : σ) (p : Payload S D)
    (hp : WriterOp.Encode p ∈ (newListQueueStatsHandlerFunc insp t jsonEncode r s).1) :
    ∃ names s1 hs, insp.Queues s = (.ok names, s1) ∧
      Succeeds (fun q => insp.History q numdays) names.elems s1 hs
        (newListQueueStatsHandlerFunc insp t jsonEncode r s).2 := by
  rcases hq : insp.Queues s with ⟨res, s1⟩
  cases res with
  | error e => simp [newListQueueStatsHandlerFunc, hq] at hp
  | ok names =>
    rcases hl : listQueueStatsLoop insp t names.elems GoMap.make s1 with ⟨res2, s2⟩
    cases res2 with
    | error e => simp [newListQueueStatsHandlerFunc, hq, hl] at hp
    | ok stats =>
      obtain ⟨hs, hi⟩ := listQueueStatsLoop_ok_inv insp t _ _ _ _ _ hl
      refine ⟨names, s1, hs, rfl, ?_⟩
      have : (newListQueueStatsHandlerFunc insp t jsonEncode r s).2 = s2 := by
        simp only [newListQueueStatsHandlerFunc, hq, hl]
        split <;> rfl
      rw [this]
      exact hi

/-- The log is an observation only: on the inspector with a log every handler
writes what it writes on the inspector itself and leaves the client in the same
state. -/
theorem traced_same_run (insp : Inspector σ I R) (t : transformer I R S D)
    (jsonEncode : Payload S D → Option GoError) (r : Request) (s : σ) (log : List Call) :
    ((newListQueuesHandlerFunc insp.traced t r (s, log)).1,
        (newListQueuesHandlerFunc insp.traced t r (s, log)).2.1)
      = newListQueuesHandlerFunc insp t r s ∧
    ((newGetQueueHandlerFunc insp.traced t r (s, log)).1,
        (newGetQueueHandlerFunc insp.traced t r (s, log)).2.1)
      = newGetQueueHandlerFunc insp t r s ∧
    ((newDeleteQueueHandlerFunc insp.traced t r (s, log)).1,
        (newDeleteQueueHandlerFunc insp.traced t r (s, log)).2.1)
      = newDeleteQueueHandlerFunc insp t r s ∧
    ((newPauseQueueHandlerFunc insp.traced r (s, log) : List (WriterOp S D) × _).1,
        (newPauseQueueHandlerFunc insp.traced r (s, log) : List (WriterOp S D) × _).2.1)
      = newPauseQueueHandlerFunc insp r s ∧
    ((newResumeQueueHandlerFunc insp.traced r (s, log) : List (WriterOp S D) × _).1,
        (newResumeQueueHandlerFunc insp.traced r (s, log) : List (WriterOp S D) × _).2.1)
      = newResumeQueueHandlerFunc insp r s ∧
    ((newListQueueStatsHandlerFunc insp.traced t jsonEncode r (s, log)).1,
        (newListQueueStatsHandlerFunc insp.traced t jsonEncode r (s, log)).2.1)
      = newListQueueStatsHandlerFunc insp t jsonEncode r s := by
  refine ⟨?_, ?_, ?_, ?_, ?_, ?_⟩
  · rcases hq : insp.Queues s with ⟨res, s1⟩
    have hq2 : insp.traced.Queues (s, log) = (res, (s1, log ++ [Call.Queues])) := by
      simp [Inspector.traced, hq]
    cases res with
    | error e => simp [newListQueuesHandlerFunc, hq, hq2]
    | ok names =>
      have hl := listQueuesLoop_traced insp t names.elems 0 (GoSlice.make none names.len) s1
        (log ++ [Call.Queues])
      rcases hl2 : listQueuesLoop insp t 0 names.elems (GoSlice.make none names.len) s1
        with ⟨res2, s2⟩
      rcases hl3 : listQueuesLoop insp.traced t 0 names.elems (GoSlice.make none names.len)
        (s1, log ++ [Call.Queues]) with ⟨res3, s3, log3⟩
      rw [hl2, hl3] at hl
      simp only at hl
      obtain ⟨rfl, rfl⟩ := hl
      cases res3 <;> simp [newListQueuesHandlerFunc, hq, hq2, hl2, hl3]
  · rcases hc : insp.GetQueueInfo (r.Vars.index "qname") s with ⟨res, s1⟩
    cases res with
    | error e => simp [newGetQueueHandlerFunc, Inspector.traced, hc]
    | ok qinfo =>
      rcases hh : insp.History (r.Vars.index "qname") 10 s1 with ⟨res2, s2⟩
      cases res2 <;> simp [newGetQueueHandlerFunc, Inspector.traced, hc, hh]
  · rcases hc : insp.DeleteQueue (r.Vars.index "qname") false s with ⟨res, s1⟩
    cases res with
    | none => simp [newDeleteQueueHandlerFunc, Inspector.traced, hc]
    | some e =>
      simp only [newDeleteQueueHandlerFunc, Inspector.traced, hc]
      split <;> [rfl; (split <;> rfl)]
  · rcases hc : insp.PauseQueue (r.Vars.index "qname") s with ⟨res, s1⟩
    cases res <;> simp [newPauseQueueHandlerFunc, Inspector.traced, hc]
  · rcases hc : insp.UnpauseQueue (r.Vars.index "qname") s with ⟨res, s1⟩
    cases res <;> simp [newResumeQueueHandlerFunc, Inspector.traced, hc]
  · rcases hq : insp.Queues s with ⟨res, s1⟩
    have hq2 : insp.traced.Queues (s, log) = (res, (s1, log ++ [Call.Queues])) := by
      simp [Inspector.traced, hq]
    cases res with
    | error e => simp [newListQueueStatsHandlerFunc, hq, hq2]
    | ok names =>
      have hl := listQueueStatsLoop_traced insp t names.elems
        (GoMap.make : GoMap String (GoSlice D)) s1 (log ++ [Call.Queues])
      rcases hl2 : listQueueStatsLoop insp t names.elems
        (GoMap.make : GoMap String (GoSlice D)) s1 with ⟨res2, s2⟩
      rcases hl3 : listQueueStatsLoop insp.traced t names.elems
        (GoMap.make : GoMap String (GoSlice D)) (s1, log ++ [Call.Queues])
        with ⟨res3, s3, log3⟩
      rw [hl2, hl3] at hl
      simp only at hl
      obtain ⟨rfl, rfl⟩ := hl
      cases res3 with
      | error e => simp [newListQueueStatsHandlerFunc, hq, hq2, hl2, hl3]
      | ok stats =>
        simp only [newListQueueStatsHandlerFunc, hq, hq2, hl2, hl3]
        split <;> rfl

end Lemmas

/-! ## The claims -/

section Claims

variable {σ I R S D : Type}

/-- What the delete handler writes and where it leaves the client, by the
outcome of the one `DeleteQueue` call it makes. -/
theorem newDeleteQueueHandlerFunc_cases (insp : Inspector σ I R) (t : transformer I R S D)
    (r : Request) (s : σ) :
    ((insp.DeleteQueue (r.Vars.index "qname") false s).1 = none →
      (newDeleteQueueHandlerFunc insp t r s).1 = [WriterOp.WriteHeader 204]) ∧
    (∀ err, (insp.DeleteQueue (r.Vars.index "qname") false s).1 = some err →
      (errorsIs err ErrQueueNotFound = true →
        (newDeleteQueueHandlerFunc insp t r s).1 = [WriterOp.httpError err.Error 404]) ∧
      (errorsIs err ErrQueueNotEmpty = true →
        (newDeleteQueueHandlerFunc insp t r s).1 = [WriterOp.httpError err.Error 400]) ∧
      (errorsIs err ErrQueueNotFound = false → errorsIs err ErrQueueNotEmpty = false →
        (newDeleteQueueHandlerFunc insp t r s).1 = [WriterOp.httpError err.Error 500])) ∧
    (newDeleteQueueHandlerFunc insp t r s).2 = (insp.DeleteQueue (r.Vars.index "qname") false s).2 := by
  rcases hc : insp.DeleteQueue (r.Vars.index "qname") false s with ⟨res, s1⟩
  cases res with
  | none =>
    refine ⟨fun _ => ?_, fun err h => ?_, ?_⟩
    · simp [newDeleteQueueHandlerFunc, hc, StatusNoContent]
    · simp at h
    · simp [newDeleteQueueHandlerFunc, hc]
  | some e =>
    refine ⟨fun h => ?_, fun err h => ?_, ?_⟩
    · simp at h
    · simp only [Option.some.injEq] at h
      subst h
      refine ⟨fun h1 => ?_, fun h2 => ?_, fun h1 h2 => ?_⟩
      · simp [newDeleteQueueHandlerFunc, hc, h1, StatusNotFound]
      · have h1 : errorsIs e ErrQueueNotFound = false := by
          cases h3 : errorsIs e ErrQueueNotFound with
          | false => rfl
          | true => rw [errorsIs_notFound_notEmpty e h3] at h2; cases h2
        simp [newDeleteQueueHandlerFunc, hc, h1, h2, StatusBadRequest]
      · simp [newDeleteQueueHandlerFunc, hc, h1, h2, StatusInternalServerError]
    · simp only [newDeleteQueueHandlerFunc, hc]
      split <;> [rfl; (split <;> rfl)]

/-- Claim C1. Delete queue status mapping: for every request and every outcome
of the inspector's `DeleteQueue` call, the handler writes only the header 204
when the call returns no error; when it returns an error, the handler makes one
`http.Error` call whose text is the message of that error and whose code is 404
if the error is (or wraps) queue-not-found, 400 if it is (or wraps)
queue-not-empty, and 500 for every other error. The client is left in the state
the call left it in. -/
theorem deleteQueue_status_mapping (insp : Inspector σ I R) (t : transformer I R S D)
    (r : Request) (s : σ) :
    ((insp.DeleteQueue (r.Vars.index "qname") false s).1 = none →
      (newDeleteQueueHandlerFunc insp t r s).1 = [WriterOp.WriteHeader 204]) ∧
    (∀ err, (insp.DeleteQueue (r.Vars.index "qname") false s).1 = some err →
      (errorsIs err ErrQueueNotFound = true →
        (newDeleteQueueHandlerFunc insp t r s).1 = [WriterOp.httpError err.Error 404]) ∧
      (errorsIs err ErrQueueNotEmpty = true →
        (newDeleteQueueHandlerFunc insp t r s).1 = [WriterOp.httpError err.Error 400]) ∧
      (errorsIs err ErrQueueNotFound = false → errorsIs err ErrQueueNotEmpty = false →
        (newDeleteQueueHandlerFunc insp t r s).1 = [WriterOp.httpError err.Error 500])) ∧
    (newDeleteQueueHandlerFunc insp t r s).2 = (insp.DeleteQueue (r.Vars.index "qname") false s).2 :=
  newDeleteQueueHandlerFunc_cases insp t r s

/-- The four cases of claim C1 on the table client: an empty queue, an unknown
queue, a queue with tasks, a store that does not answer. -/
theorem deleteQueue_status_mapping_witness :
    (newDeleteQueueHandlerFunc tableInspector tableTransformer (requestFor "image") tableTwo).1
        = [WriterOp.WriteHeader 204] ∧
    (newDeleteQueueHandlerFunc tableInspector tableTransformer (requestFor "nope") tableTwo).1
        = [WriterOp.httpError "queue not found: queue" 404] ∧
    (newDeleteQueueHandlerFunc tableInspector tableTransformer (requestFor "email") tableTwo).1
        = [WriterOp.httpError "queue is not empty: queue" 400] ∧
    (newDeleteQueueHandlerFunc tableInspector tableTransformer (requestFor "email") tableDown).1
        = [WriterOp.httpError "connection refused" 500] :=
  ⟨(deleteQueue_status_mapping tableInspector tableTransformer (requestFor "image")
      tableTwo).1 (by decide),
   ((deleteQueue_status_mapping tableInspector tableTransformer (requestFor "nope")
      tableTwo).2.1 errNotFound (by decide)).1 (by decide),
   ((deleteQueue_status_mapping tableInspector tableTransformer (requestFor "email")
      tableTwo).2.1 errNotEmpty (by decide)).2.1 (by decide),
   ((deleteQueue_status_mapping tableInspector tableTransformer (requestFor "email")
      tableDown).2.1 errUnreachable (by decide)).2.2 (by decide) (by decide)⟩

/-- Claim C2. Delete queue never forces: for every request the handler makes
one call on the inspector, `DeleteQueue` with the value of the route variable
`qname` and force `false`; so under an inspector that refuses a non-forced
delete of a non-empty queue with queue-not-empty, the handler on a queue with
`n > 0` tasks makes one `http.Error` call with the message of that error and
code 400, and the queue is in place with its `n` tasks afterwards. -/
theorem deleteQueue_never_forces (insp : Inspector σ I R) (t : transformer I R S D)
    (r : Request) (s : σ) :
    (newDeleteQueueHandlerFunc insp.traced t r (s, [])).2.2
        = [Call.DeleteQueue (r.Vars.index "qname") false] ∧
    (∀ (size : σ → String → Option Nat), RefusesNonEmpty insp size →
      ∀ n, size s (r.Vars.index "qname") = some n → 0 < n →
        ∃ err, errorsIs err ErrQueueNotEmpty = true ∧
          (newDeleteQueueHandlerFunc insp t r s).1 = [WriterOp.httpError err.Error 400] ∧
          size (newDeleteQueueHandlerFunc insp t r s).2 (r.Vars.index "qname") = some n) := by
  constructor
  · have h := (newDeleteQueueHandlerFunc_cases insp.traced t r (s, [])).2.2
    rw [h]
    simp [Inspector.traced]
  · intro size href n hsize hn
    obtain ⟨err, he, hne, hkeep⟩ := href _ s n hsize hn
    have h := newDeleteQueueHandlerFunc_cases insp t r s
    refine ⟨err, hne, (h.2.1 err he).2.1 hne, ?_⟩
    rw [h.2.2]
    exact hkeep

/-- Claim C2 on the table client: deleting the queue `email`, which has three
tasks, yields 400 and the queue keeps its three tasks. -/
theorem deleteQueue_never_forces_witness :
    (newDeleteQueueHandlerFunc tableInspector.traced tableTransformer (requestFor "email")
        (tableTwo, [])).2.2 = [Call.DeleteQueue "email" false] ∧
    ∃ err, errorsIs err ErrQueueNotEmpty = true ∧
      (newDeleteQueueHandlerFunc tableInspector tableTransformer (requestFor "email") tableTwo).1
        = [WriterOp.httpError err.Error 400] ∧
      getEntry "email"
        (newDeleteQueueHandlerFunc tableInspector tableTransformer (requestFor "email")
          tableTwo).2.queues = some 3 :=
  ⟨(deleteQueue_never_forces tableInspector tableTransformer (requestFor "email") tableTwo).1,
   by
    obtain ⟨err, h1, h2, h3⟩ :=
      (deleteQueue_never_forces tableInspector tableTransformer (requestFor "email")
        tableTwo).2 _ tableInspector_refusesNonEmpty 3 (by decide) (by decide)
    refine ⟨err, h1, h2, ?_⟩
    have hr : (newDeleteQueueHandlerFunc tableInspector tableTransformer (requestFor "email")
        tableTwo).2.reachable = true := by decide
    simpa [hr] using h3⟩

/-- Claim C6. Get queue success shape: when the snapshot retrieval and the
history retrieval for 10 days both succeed for the requested name, the handler
encodes one payload with exactly the fields "current" and "history"; "current"
is the transformed snapshot, "history" is the elementwise transform of the
history the inspector returned, of the same length and in the same order; so a
history of at most 10 records gives at most 10 entries. -/
theorem getQueue_success_shape (insp : Inspector σ I R) (t : transformer I R S D)
    (r : Request) (s s1 s2 : σ) (qinfo : I) (data : GoSlice R)
    (hinfo : insp.GetQueueInfo (r.Vars.index "qname") s = (.ok qinfo, s1))
    (hhist : insp.History (r.Vars.index "qname") 10 s1 = (.ok data, s2)) :
    ∃ (fields : GoMap String (Value S D)) (history : GoSlice D),
      newGetQueueHandlerFunc insp t r s = ([WriterOp.Encode (.object fields)], s2) ∧
      fields.keys = ["current", "history"] ∧
      fields.get? "current" = some (.QueueStateSnapshot (t.toQueueStateSnapshot qinfo)) ∧
      fields.get? "history" = some (.DailyStatsSlice history) ∧
      history.elems = data.elems.map t.toDailyStats ∧
      history.len = data.len ∧
      (data.len ≤ 10 → history.len ≤ 10) := by
  have helems := dailyStatsLoop_elems t data.elems .nil
  have hnil : (GoSlice.nil : GoSlice D).elems = [] := rfl
  rw [hnil, List.nil_append] at helems
  have hlen : (dailyStatsLoop t data.elems .nil).len = data.len := by
    simp only [GoSlice.len, helems, List.length_map]
  refine ⟨((GoMap.make : GoMap String (Value S D)).set "current"
      (.QueueStateSnapshot (t.toQueueStateSnapshot qinfo))).set "history"
      (.DailyStatsSlice (dailyStatsLoop t data.elems .nil)),
    dailyStatsLoop t data.elems .nil, ?_, ?_, ?_, ?_, ?_, hlen, ?_⟩
  · simp only [newGetQueueHandlerFunc, hinfo, hhist]
  · simp [GoMap.keys, GoMap.set, GoMap.make, setEntries]
  · simp [GoMap.get?, GoMap.set, GoMap.make, setEntries, getEntry]
  · simp [GoMap.get?, GoMap.set, GoMap.make, setEntries, getEntry]
  · exact helems
  · intro h
    omega

/-- Claim C6 on the table client: the queue `email` has three days of
history. -/
theorem getQueue_success_shape_witness :
    ∃ (fields : GoMap String (Value Nat Nat)) (history : GoSlice Nat),
      newGetQueueHandlerFunc tableInspector tableTransformer (requestFor "email") tableTwo
        = ([WriterOp.Encode (.object fields)], tableTwo) ∧
      fields.keys = ["current", "history"] ∧
      fields.get? "current" = some (.QueueStateSnapshot 103) ∧
      fields.get? "history" = some (.DailyStatsSlice history) ∧
      history.elems = [1, 2, 3] ∧
      history.len = 3 ∧
      (3 ≤ 10 → history.len ≤ 10) :=
  getQueue_success_shape tableInspector tableTransformer (requestFor "email")
    tableTwo tableTwo tableTwo 3 (.mk [0, 1, 2]) rfl rfl

/-- Claim C7. Get queue error mapping: when the snapshot retrieval fails, or
the snapshot retrieval succeeds and the history retrieval fails, the handler
makes one `http.Error` call with the message of the error and code 500 and
nothing else, whatever the error is: a queue-not-found error is handled as any
other error, and the transformed snapshot is not written. -/
theorem getQueue_error_mapping (insp : Inspector σ I R) (t : transformer I R S D)
    (r : Request) (s : σ) :
    (∀ err s1, insp.GetQueueInfo (r.Vars.index "qname") s = (.error err, s1) →
      newGetQueueHandlerFunc insp t r s = ([WriterOp.httpError err.Error 500], s1)) ∧
    (∀ qinfo s1 err s2, insp.GetQueueInfo (r.Vars.index "qname") s = (.ok qinfo, s1) →
      insp.History (r.Vars.index "qname") 10 s1 = (.error err, s2) →
      newGetQueueHandlerFunc insp t r s = ([WriterOp.httpError err.Error 500], s2)) := by
  constructor
  · intro err s1 h
    simp [newGetQueueHandlerFunc, h, StatusInternalServerError]
  · intro qinfo s1 err s2 h1 h2
    simp [newGetQueueHandlerFunc, h1, h2, StatusInternalServerError]

/-- Claim C7 on the table client: an unknown queue, whose error wraps
queue-not-found, and a store that does not answer both yield 500. -/
theorem getQueue_error_mapping_witness :
    errorsIs errNotFound ErrQueueNotFound = true ∧
    newGetQueueHandlerFunc tableInspector tableTransformer (requestFor "nope") tableTwo
      = ([WriterOp.httpError "queue not found: queue" 500], tableTwo) ∧
    newGetQueueHandlerFunc tableInspector tableTransformer (requestFor "email") tableDown
      = ([WriterOp.httpError "connection refused" 500], tableDown) :=
  ⟨by decide,
   (getQueue_error_mapping tableInspector tableTransformer (requestFor "nope") tableTwo).1
      errNotFound tableTwo rfl,
   (getQueue_error_mapping tableInspector tableTransformer (requestFor "email") tableDown).1
      errUnreachable tableDown rfl⟩

/-- Reading the route variable back: after `vars[k] = v` the expression
`vars[k]` is `v`, whatever else the map holds. -/
theorem GoMap.index_set (vars : GoMap String String) (k v : String) :
    (vars.set k v).index k = v := by
  simp [GoMap.index, GoMap.get?, GoMap.set, getEntry_setEntries_self]

/-- What the pause and the resume handler do, by the outcome of the one call
each makes: the call is `PauseQueue`, respectively `UnpauseQueue`, on
`vars["qname"]`. -/
theorem pause_resume_cases (insp : Inspector σ I R) (r : Request) (s : σ) :
    ((newPauseQueueHandlerFunc insp.traced r (s, []) : List (WriterOp S D) × _).2.2
        = [Call.PauseQueue (r.Vars.index "qname")] ∧
      (((newPauseQueueHandlerFunc insp r s : List (WriterOp S D) × σ).1
          = [WriterOp.WriteHeader 204]) ↔ (insp.PauseQueue (r.Vars.index "qname") s).1 = none) ∧
      (∀ err, (insp.PauseQueue (r.Vars.index "qname") s).1 = some err →
        (newPauseQueueHandlerFunc insp r s : List (WriterOp S D) × σ).1
          = [WriterOp.httpError err.Error 500])) ∧
    ((newResumeQueueHandlerFunc insp.traced r (s, []) : List (WriterOp S D) × _).2.2
        = [Call.UnpauseQueue (r.Vars.index "qname")] ∧
      (((newResumeQueueHandlerFunc insp r s : List (WriterOp S D) × σ).1
          = [WriterOp.WriteHeader 204]) ↔ (insp.UnpauseQueue (r.Vars.index "qname") s).1 = none) ∧
      (∀ err, (insp.UnpauseQueue (r.Vars.index "qname") s).1 = some err →
        (newResumeQueueHandlerFunc insp r s : List (WriterOp S D) × σ).1
          = [WriterOp.httpError err.Error 500])) := by
  refine ⟨⟨?_, ?_, ?_⟩, ⟨?_, ?_, ?_⟩⟩
  · rcases hc : insp.PauseQueue (r.Vars.index "qname") s with ⟨res, s1⟩
    cases res <;> simp [newPauseQueueHandlerFunc, Inspector.traced, hc]
  · rcases hc : insp.PauseQueue (r.Vars.index "qname") s with ⟨res, s1⟩
    cases res <;> simp [newPauseQueueHandlerFunc, hc, StatusNoContent]
  · intro err h
    rcases hc : insp.PauseQueue (r.Vars.index "qname") s with ⟨res, s1⟩
    rw [hc] at h
    simp only at h
    subst h
    simp [newPauseQueueHandlerFunc, hc, StatusInternalServerError]
  · rcases hc : insp.UnpauseQueue (r.Vars.index "qname") s with ⟨res, s1⟩
    cases res <;> simp [newResumeQueueHandlerFunc, Inspector.traced, hc]
  · rcases hc : insp.UnpauseQueue (r.Vars.index "qname") s with ⟨res, s1⟩
    cases res <;> simp [newResumeQueueHandlerFunc, hc, StatusNoContent]
  · intro err h
    rcases hc : insp.UnpauseQueue (r.Vars.index "qname") s with ⟨res, s1⟩
    rw [hc] at h
    simp only at h
    subst h
    simp [newResumeQueueHandlerFunc, hc, StatusInternalServerError]

/-- Claim C8. Pause and resume: for every queue name `q` and every request
whose route variable `qname` has the value `q` (whatever other route variables
`vars` it carries), the pause handler makes one call on the inspector,
`PauseQueue(q)`, and the resume handler one call, `UnpauseQueue(q)`; each
handler writes only the header 204 if and only if its call returns no error,
and otherwise makes one `http.Error` call with the message of the error and
code 500, for every error, queue-not-found included. -/
theorem pause_resume_mapping (insp : Inspector σ I R) (vars : GoMap String String)
    (q : String) (s : σ) :
    ((newPauseQueueHandlerFunc insp.traced ⟨vars.set "qname" q⟩ (s, []) :
          List (WriterOp S D) × _).2.2 = [Call.PauseQueue q] ∧
      (((newPauseQueueHandlerFunc insp ⟨vars.set "qname" q⟩ s : List (WriterOp S D) × σ).1
          = [WriterOp.WriteHeader 204]) ↔ (insp.PauseQueue q s).1 = none) ∧
      (∀ err, (insp.PauseQueue q s).1 = some err →
        (newPauseQueueHandlerFunc insp ⟨vars.set "qname" q⟩ s : List (WriterOp S D) × σ).1
          = [WriterOp.httpError err.Error 500])) ∧
    ((newResumeQueueHandlerFunc insp.traced ⟨vars.set "qname" q⟩ (s, []) :
          List (WriterOp S D) × _).2.2 = [Call.UnpauseQueue q] ∧
      (((newResumeQueueHandlerFunc insp ⟨vars.set "qname" q⟩ s : List (WriterOp S D) × σ).1
          = [WriterOp.WriteHeader 204]) ↔ (insp.UnpauseQueue q s).1 = none) ∧
      (∀ err, (insp.UnpauseQueue q s).1 = some err →
        (newResumeQueueHandlerFunc insp ⟨vars.set "qname" q⟩ s : List (WriterOp S D) × σ).1
          = [WriterOp.httpError err.Error 500])) := by
  have h := pause_resume_cases (S := S) (D := D) insp ⟨vars.set "qname" q⟩ s
  simp only [GoMap.index_set] at h
  exact h

/-- Claim C8 on the table client, for the existing queue `email`, the unknown
queue `nope`, whose error wraps queue-not-found, and a store that does not
answer: the calls are on the requested name; the existing queue yields 204,
the two errors yield 500. -/
theorem pause_resume_mapping_witness :
    ((newPauseQueueHandlerFunc tableInspector.traced (requestFor "email") (tableTwo, []) :
        List (WriterOp Nat Nat) × _).2.2 = [Call.PauseQueue "email"] ∧
      (newResumeQueueHandlerFunc tableInspector.traced (requestFor "email") (tableTwo, []) :
        List (WriterOp Nat Nat) × _).2.2 = [Call.UnpauseQueue "email"] ∧
      (newPauseQueueHandlerFunc tableInspector (requestFor "email") tableTwo :
        List (WriterOp Nat Nat) × Table).1 = [WriterOp.WriteHeader 204] ∧
      (newResumeQueueHandlerFunc tableInspector (requestFor "email") tableTwo :
        List (WriterOp Nat Nat) × Table).1 = [WriterOp.WriteHeader 204]) ∧
    (errorsIs errNotFound ErrQueueNotFound = true ∧
      (newPauseQueueHandlerFunc tableInspector.traced (requestFor "nope") (tableTwo, []) :
        List (WriterOp Nat Nat) × _).2.2 = [Call.PauseQueue "nope"] ∧
      (newResumeQueueHandlerFunc tableInspector.traced (requestFor "nope") (tableTwo, []) :
        List (WriterOp Nat Nat) × _).2.2 = [Call.UnpauseQueue "nope"] ∧
      (newPauseQueueHandlerFunc tableInspector (requestFor "nope") tableTwo :
        List (WriterOp Nat Nat) × Table).1
          = [WriterOp.httpError "queue not found: queue" 500] ∧
      (newResumeQueueHandlerFunc tableInspector (requestFor "nope") tableTwo :
        List (WriterOp Nat Nat) × Table).1
          = [WriterOp.httpError "queue not found: queue" 500]) ∧
    ((newPauseQueueHandlerFunc tableInspector (requestFor "email") tableDown :
        List (WriterOp Nat Nat) × Table).1 = [WriterOp.httpError "connection refused" 500] ∧
      (newResumeQueueHandlerFunc tableInspector (requestFor "email") tableDown :
        List (WriterOp Nat Nat) × Table).1 = [WriterOp.httpError "connection refused" 500]) :=
  ⟨⟨(pause_resume_mapping tableInspector GoMap.make "email" tableTwo).1.1,
    (pause_resume_mapping tableInspector GoMap.make "email" tableTwo).2.1,
    (pause_resume_mapping tableInspector GoMap.make "email" tableTwo).1.2.1.mpr (by decide),
    (pause_resume_mapping tableInspector GoMap.make "email" tableTwo).2.2.1.mpr (by decide)⟩,
   ⟨by decide,
    (pause_resume_mapping tableInspector GoMap.make "nope" tableTwo).1.1,
    (pause_resume_mapping tableInspector GoMap.make "nope" tableTwo).2.1,
    (pause_resume_mapping tableInspector GoMap.make "nope" tableTwo).1.2.2
      errNotFound (by decide),
    (pause_resume_mapping tableInspector GoMap.make "nope" tableTwo).2.2.2
      errNotFound (by decide)⟩,
   ⟨(pause_resume_mapping tableInspector GoMap.make "email" tableDown).1.2.2
      errUnreachable (by decide),
    (pause_resume_mapping tableInspector GoMap.make "email" tableDown).2.2.2
      errUnreachable (by decide)⟩⟩

/-- Claim C3. List queues preserves enumeration order: when the enumeration
returns the names `names` and the snapshot retrievals for them, made in that
order, all succeed with the results `infos`, the handler encodes one payload
whose field "queues" is a slice with as many entries as there are names; for
every position `i` the entry is the transformed result of the retrieval for the
`i`-th name. Nothing is sorted, dropped, added or merged. -/
theorem listQueues_preserves_order (insp : Inspector σ I R) (t : transformer I R S D)
    (r : Request) (s s1 s2 : σ) (names : GoSlice String) (infos : List I)
    (hq : insp.Queues s = (.ok names, s1))
    (hrun : Succeeds insp.GetQueueInfo names.elems s1 infos s2) :
    ∃ snapshots : List (Option S),
      newListQueuesHandlerFunc insp t r s
        = ([WriterOp.Encode (.object ⟨[("queues", .QueueStateSnapshots (.mk snapshots))]⟩)],
            s2) ∧
      snapshots = infos.map (fun x => some (t.toQueueStateSnapshot x)) ∧
      snapshots.length = names.len ∧
      ∀ (i : Nat) (q : String), names.elems[i]? = some q →
        ∃ qinfo sa sb, insp.GetQueueInfo q sa = (.ok qinfo, sb) ∧ infos[i]? = some qinfo ∧
          snapshots[i]? = some (some (t.toQueueStateSnapshot qinfo)) := by
  refine ⟨_, newListQueuesHandlerFunc_ok insp t r hq hrun, rfl, ?_, ?_⟩
  · simp [GoSlice.len, hrun.length_eq]
  · intro i q hi
    obtain ⟨a, sa, sb, ha, hc⟩ := hrun.getElem? i q hi
    exact ⟨a, sa, sb, hc, ha, by simp [ha]⟩

/-- Claim C3 on the table client: two queues, in the order of the
enumeration. -/
theorem listQueues_preserves_order_witness :
    ∃ snapshots : List (Option Nat),
      newListQueuesHandlerFunc tableInspector tableTransformer (requestFor "") tableTwo
        = ([WriterOp.Encode (.object ⟨[("queues", .QueueStateSnapshots (.mk snapshots))]⟩)],
            tableTwo) ∧
      snapshots = [some 103, some 100] ∧
      snapshots.length = 2 ∧
      ∀ (i : Nat) (q : String), ["email", "image"][i]? = some q →
        ∃ qinfo sa sb, tableInspector.GetQueueInfo q sa = (.ok qinfo, sb) ∧
          [3, 0][i]? = some qinfo ∧
          snapshots[i]? = some (some (tableTransformer.toQueueStateSnapshot qinfo)) :=
  listQueues_preserves_order tableInspector tableTransformer (requestFor "") tableTwo
    tableTwo tableTwo (.mk ["email", "image"]) [3, 0] rfl
    (Succeeds.cons rfl (Succeeds.cons rfl (Succeeds.nil _)))

/-- Claim C4. List queue stats key set: when the enumeration returns the names
`names` and the history retrievals for 90 days, made in that order, all succeed
with the results `hs`, the handler encodes a `ListQueueStatsResponse` whose map
has each key once, a key for every enumerated name and no other key, also when
a name is enumerated more than once; the value under a name is the transformed
list of the history returned by the retrieval for the last occurrence of that
name, which is the only retrieval for a name enumerated once. -/
theorem listQueueStats_key_set (insp : Inspector σ I R) (t : transformer I R S D)
    (jsonEncode : Payload S D → Option GoError)
    (r : Request) (s s1 s2 : σ) (names : GoSlice String) (hs : List (GoSlice R))
    (hq : insp.Queues s = (.ok names, s1))
    (hrun : Succeeds (fun q => insp.History q 90) names.elems s1 hs s2) :
    ∃ stats : GoMap String (GoSlice D),
      newListQueueStatsHandlerFunc insp t jsonEncode r s
        = (WriterOp.Encode (.ListQueueStatsResponse stats) ::
            (match jsonEncode (.ListQueueStatsResponse stats) with
              | some err => [WriterOp.httpError err.Error 500]
              | none => []), s2) ∧
      stats.keys.Nodup ∧
      (∀ k, k ∈ stats.keys ↔ k ∈ names.elems) ∧
      (∀ (pre post : List String) (q : String) (hpre hpost : List (GoSlice R))
          (h : GoSlice R),
        names.elems = pre ++ q :: post → hs = hpre ++ h :: hpost →
        hpre.length = pre.length → q ∉ post →
        stats.get? q = some (t.toDailyStatsList h)) := by
  refine ⟨_, newListQueueStatsHandlerFunc_ok insp t jsonEncode r hq hrun, ?_, ?_, ?_⟩
  · exact foldl_set_nodup t _ _ (by simp [GoMap.keys, GoMap.make])
  · intro k
    rw [foldl_set_keys t _ _ _ hrun.length_eq k]
    simp [GoMap.keys, GoMap.make]
  · intro pre post q hpre hpost h hn hh hlen hq2
    have hl := hrun.length_eq
    rw [hn, hh] at hl
    simp only [List.length_append, List.length_cons] at hl
    rw [hn, hh]
    exact foldl_set_get_last t pre post q hpre hpost h _ hlen (by omega) hq2

/-- Claim C4 on the table client, with the name `email` enumerated twice: the
map has the keys `email` and `image`, and under `email` the history of the
second retrieval. -/
theorem listQueueStats_key_set_witness :
    ∃ stats : GoMap String (GoSlice Nat),
      newListQueueStatsHandlerFunc tableInspector tableTransformer encodeOk (requestFor "")
          tableDup
        = ([WriterOp.Encode (.ListQueueStatsResponse stats)], tableDup) ∧
      stats.keys.Nodup ∧
      (∀ k, k ∈ stats.keys ↔ k ∈ ["email", "image", "email"]) ∧
      stats.get? "email" = some (.mk [1, 2, 3]) := by
  obtain ⟨stats, h1, h2, h3, h4⟩ :=
    listQueueStats_key_set tableInspector tableTransformer encodeOk (requestFor "")
      tableDup tableDup tableDup (.mk ["email", "image", "email"])
      [.mk [0, 1, 2], .mk [], .mk [0, 1, 2]] rfl
      (Succeeds.cons rfl (Succeeds.cons rfl (Succeeds.cons rfl (Succeeds.nil _))))
  exact ⟨stats, h1, h2, h3,
    h4 ["email", "image"] [] "email" [.mk [0, 1, 2], .mk []] [] (.mk [0, 1, 2]) rfl rfl rfl
      (by simp)⟩

/-- Claim C5. List operations are all-or-nothing: for list queues and for list
queue stats, when the enumeration fails, or a retrieval fails after the
retrievals for the names before it succeeded (at any position, the last
included), the handler makes one `http.Error` call with the message of that
error and code 500, and nothing else: no result retrieved before appears.
Conversely, when the handler encodes a payload, the enumeration and every
retrieval succeeded. -/
theorem list_all_or_nothing (insp : Inspector σ I R) (t : transformer I R S D)
    (jsonEncode : Payload S D → Option GoError) (r : Request) (s : σ) :
    ((∀ err s1, insp.Queues s = (.error err, s1) →
        newListQueuesHandlerFunc insp t r s = ([WriterOp.httpError err.Error 500], s1)) ∧
      (∀ names s1 pre q post infos s2 err s3, insp.Queues s = (.ok names, s1) →
        names.elems = pre ++ q :: post → Succeeds insp.GetQueueInfo pre s1 infos s2 →
        insp.GetQueueInfo q s2 = (.error err, s3) →
        newListQueuesHandlerFunc insp t r s = ([WriterOp.httpError err.Error 500], s3)) ∧
      (∀ p, WriterOp.Encode p ∈ (newListQueuesHandlerFunc insp t r s).1 →
        ∃ names s1 infos, insp.Queues s = (.ok names, s1) ∧
          Succeeds insp.GetQueueInfo names.elems s1 infos
            (newListQueuesHandlerFunc insp t r s).2)) ∧
    ((∀ err s1, insp.Queues s = (.error err, s1) →
        newListQueueStatsHandlerFunc insp t jsonEncode r s
          = ([WriterOp.httpError err.Error 500], s1)) ∧
      (∀ names s1 pre q post hs s2 err s3, insp.Queues s = (.ok names, s1) →
        names.elems = pre ++ q :: post →
        Succeeds (fun q => insp.History q 90) pre s1 hs s2 →
        insp.History q 90 s2 = (.error err, s3) →
        newListQueueStatsHandlerFunc insp t jsonEncode r s
          = ([WriterOp.httpError err.Error 500], s3)) ∧
      (∀ p, WriterOp.Encode p ∈ (newListQueueStatsHandlerFunc insp t jsonEncode r s).1 →
        ∃ names s1 hs, insp.Queues s = (.ok names, s1) ∧
          Succeeds (fun q => insp.History q 90) names.elems s1 hs
            (newListQueueStatsHandlerFunc insp t jsonEncode r s).2)) := by
  refine ⟨⟨?_, ?_, ?_⟩, ⟨?_, ?_, ?_⟩⟩
  · intro err s1 hq
    exact newListQueuesHandlerFunc_queues_error insp t r hq
  · intro names s1 pre q post infos s2 err s3 hq hn hrun hf
    exact newListQueuesHandlerFunc_info_error insp t r hq hn hrun hf
  · intro p hp
    exact newListQueuesHandlerFunc_encode_inv insp t r s p hp
  · intro err s1 hq
    exact newListQueueStatsHandlerFunc_queues_error insp t jsonEncode r hq
  · intro names s1 pre q post hs s2 err s3 hq hn hrun hf
    exact newListQueueStatsHandlerFunc_history_error insp t jsonEncode r hq hn hrun hf
  · intro p hp
    exact newListQueueStatsHandlerFunc_encode_inv insp t jsonEncode r s p hp

/-- Claim C5 on the table client: a store that does not answer, and an
enumeration whose second name is not a queue any more, for both handlers. -/
theorem list_all_or_nothing_witness :
    newListQueuesHandlerFunc tableInspector tableTransformer (requestFor "") tableDown
        = ([WriterOp.httpError "connection refused" 500], tableDown) ∧
    newListQueuesHandlerFunc tableInspector tableTransformer (requestFor "") tableStale
        = ([WriterOp.httpError "queue not found: queue" 500], tableStale) ∧
    newListQueueStatsHandlerFunc tableInspector tableTransformer encodeOk (requestFor "")
        tableDown = ([WriterOp.httpError "connection refused" 500], tableDown) ∧
    newListQueueStatsHandlerFunc tableInspector tableTransformer encodeOk (requestFor "")
        tableStale = ([WriterOp.httpError "queue not found: queue" 500], tableStale) :=
  ⟨(list_all_or_nothing tableInspector tableTransformer encodeOk (requestFor "")
      tableDown).1.1 errUnreachable tableDown rfl,
   (list_all_or_nothing tableInspector tableTransformer encodeOk (requestFor "")
      tableStale).1.2.1 (.mk ["email", "gone", "image"]) tableStale ["email"] "gone" ["image"]
      [3] tableStale errNotFound tableStale rfl rfl (Succeeds.cons rfl (Succeeds.nil _)) rfl,
   (list_all_or_nothing tableInspector tableTransformer encodeOk (requestFor "")
      tableDown).2.1 errUnreachable tableDown rfl,
   (list_all_or_nothing tableInspector tableTransformer encodeOk (requestFor "")
      tableStale).2.2.1 (.mk ["email", "gone", "image"]) tableStale ["email"] "gone" ["image"]
      [.mk [0, 1, 2]] tableStale errNotFound tableStale rfl rfl
      (Succeeds.cons rfl (Succeeds.nil _)) rfl⟩

/-- Claim C9. No retries, failures surface at once: the log of the calls a
handler makes on the inspector for one request ends with the first call that
fails, and no call is made twice for one step. Delete, pause and resume make
one call. Get queue makes the snapshot call and then, only if it succeeded, one
history call for 10 days. List queues and list queue stats make one
enumeration call and then, if it succeeded, one retrieval for each enumerated
name in the order of the enumeration, up to and including the first one that
fails and none after it. -/
theorem no_retries (insp : Inspector σ I R) (t : transformer I R S D)
    (jsonEncode : Payload S D → Option GoError) (r : Request) (s : σ) :
    ((newDeleteQueueHandlerFunc insp.traced t r (s, [])).2.2
        = [Call.DeleteQueue (r.Vars.index "qname") false] ∧
      (newPauseQueueHandlerFunc insp.traced r (s, []) : List (WriterOp S D) × _).2.2
        = [Call.PauseQueue (r.Vars.index "qname")] ∧
      (newResumeQueueHandlerFunc insp.traced r (s, []) : List (WriterOp S D) × _).2.2
        = [Call.UnpauseQueue (r.Vars.index "qname")]) ∧
    ((∀ err s1, insp.GetQueueInfo (r.Vars.index "qname") s = (.error err, s1) →
        (newGetQueueHandlerFunc insp.traced t r (s, [])).2.2
          = [Call.GetQueueInfo (r.Vars.index "qname")]) ∧
      (∀ qinfo s1, insp.GetQueueInfo (r.Vars.index "qname") s = (.ok qinfo, s1) →
        (newGetQueueHandlerFunc insp.traced t r (s, [])).2.2
          = [Call.GetQueueInfo (r.Vars.index "qname"),
              Call.History (r.Vars.index "qname") 10])) ∧
    ((∀ err s1, insp.Queues s = (.error err, s1) →
        (newListQueuesHandlerFunc insp.traced t r (s, [])).2.2 = [Call.Queues]) ∧
      (∀ names s1 infos s2, insp.Queues s = (.ok names, s1) →
        Succeeds insp.GetQueueInfo names.elems s1 infos s2 →
        (newListQueuesHandlerFunc insp.traced t r (s, [])).2.2
          = Call.Queues :: names.elems.map Call.GetQueueInfo) ∧
      (∀ names s1 pre q post infos s2 err s3, insp.Queues s = (.ok names, s1) →
        names.elems = pre ++ q :: post → Succeeds insp.GetQueueInfo pre s1 infos s2 →
        insp.GetQueueInfo q s2 = (.error err, s3) →
        (newListQueuesHandlerFunc insp.traced t r (s, [])).2.2
          = Call.Queues :: (pre ++ [q]).map Call.GetQueueInfo)) ∧
    ((∀ err s1, insp.Queues s = (.error err, s1) →
        (newListQueueStatsHandlerFunc insp.traced t jsonEncode r (s, [])).2.2
          = [Call.Queues]) ∧
      (∀ names s1 hs s2, insp.Queues s = (.ok names, s1) →
        Succeeds (fun q => insp.History q 90) names.elems s1 hs s2 →
        (newListQueueStatsHandlerFunc insp.traced t jsonEncode r (s, [])).2.2
          = Call.Queues :: names.elems.map (fun q => Call.History q 90)) ∧
      (∀ names s1 pre q post hs s2 err s3, insp.Queues s = (.ok names, s1) →
        names.elems = pre ++ q :: post →
        Succeeds (fun q => insp.History q 90) pre s1 hs s2 →
        insp.History q 90 s2 = (.error err, s3) →
        (newListQueueStatsHandlerFunc insp.traced t jsonEncode r (s, [])).2.2
          = Call.Queues :: (pre ++ [q]).map (fun q => Call.History q 90))) := by
  refine ⟨⟨?_, ?_, ?_⟩, ⟨?_, ?_⟩, ⟨?_, ?_, ?_⟩, ⟨?_, ?_, ?_⟩⟩
  · rw [(newDeleteQueueHandlerFunc_cases insp.traced t r (s, [])).2.2]
    simp [Inspector.traced]
  · rcases hc : insp.PauseQueue (r.Vars.index "qname") s with ⟨res, s1⟩
    cases res <;> simp [newPauseQueueHandlerFunc, Inspector.traced, hc]
  · rcases hc : insp.UnpauseQueue (r.Vars.index "qname") s with ⟨res, s1⟩
    cases res <;> simp [newResumeQueueHandlerFunc, Inspector.traced, hc]
  · intro err s1 h
    simp [newGetQueueHandlerFunc, Inspector.traced, h]
  · intro qinfo s1 h
    rcases hh : insp.History (r.Vars.index "qname") 10 s1 with ⟨res, s2⟩
    cases res <;> simp [newGetQueueHandlerFunc, Inspector.traced, h, hh]
  · intro err s1 hq
    have hq2 : insp.traced.Queues (s, []) = (.error err, (s1, [Call.Queues])) := by
      simp [Inspector.traced, hq]
    rw [newListQueuesHandlerFunc_queues_error insp.traced t r hq2]
  · intro names s1 infos s2 hq hrun
    have hq2 : insp.traced.Queues (s, []) = (.ok names, (s1, [Call.Queues])) := by
      simp [Inspector.traced, hq]
    rw [newListQueuesHandlerFunc_ok insp.traced t r hq2
      (hrun.traced_GetQueueInfo insp [Call.Queues])]
    rfl
  · intro names s1 pre q post infos s2 err s3 hq hn hrun hf
    have hq2 : insp.traced.Queues (s, []) = (.ok names, (s1, [Call.Queues])) := by
      simp [Inspector.traced, hq]
    have hf2 : insp.traced.GetQueueInfo q (s2, [Call.Queues] ++ pre.map Call.GetQueueInfo)
        = (.error err, (s3, [Call.Queues] ++ pre.map Call.GetQueueInfo
            ++ [Call.GetQueueInfo q])) := by
      simp [Inspector.traced, hf]
    rw [newListQueuesHandlerFunc_info_error insp.traced t r hq2 hn
      (hrun.traced_GetQueueInfo insp [Call.Queues]) hf2]
    simp
  · intro err s1 hq
    have hq2 : insp.traced.Queues (s, []) = (.error err, (s1, [Call.Queues])) := by
      simp [Inspector.traced, hq]
    rw [newListQueueStatsHandlerFunc_queues_error insp.traced t jsonEncode r hq2]
  · intro names s1 hs s2 hq hrun
    have hq2 : insp.traced.Queues (s, []) = (.ok names, (s1, [Call.Queues])) := by
      simp [Inspector.traced, hq]
    rw [newListQueueStatsHandlerFunc_ok insp.traced t jsonEncode r hq2
      (Succeeds.traced_History insp hrun [Call.Queues])]
    rfl
  · intro names s1 pre q post hs s2 err s3 hq hn hrun hf
    have hq2 : insp.traced.Queues (s, []) = (.ok names, (s1, [Call.Queues])) := by
      simp [Inspector.traced, hq]
    have hf2 : insp.traced.History q numdays
          (s2, [Call.Queues] ++ pre.map (fun q => Call.History q numdays))
        = (.error err, (s3, [Call.Queues] ++ pre.map (fun q => Call.History q numdays)
            ++ [Call.History q numdays])) := by
      have hf3 : insp.History q numdays s2 = (.error err, s3) := hf
      simp [Inspector.traced, hf3]
    rw [newListQueueStatsHandlerFunc_history_error insp.traced t jsonEncode r hq2 hn
      (Succeeds.traced_History insp hrun [Call.Queues]) hf2]
    simp [numdays]

/-- Claim C9 on the table client, with an enumeration whose second name is not
a queue any more: both list handlers stop after the retrieval for that name,
and get queue on an unknown queue makes no history call. -/
theorem no_retries_witness :
    (newListQueuesHandlerFunc tableInspector.traced tableTransformer (requestFor "")
        (tableStale, [])).2.2
      = [Call.Queues, Call.GetQueueInfo "email", Call.GetQueueInfo "gone"] ∧
    (newListQueueStatsHandlerFunc tableInspector.traced tableTransformer encodeOk
        (requestFor "") (tableStale, [])).2.2
      = [Call.Queues, Call.History "email" 90, Call.History "gone" 90] ∧
    (newGetQueueHandlerFunc tableInspector.traced tableTransformer (requestFor "gone")
        (tableStale, [])).2.2 = [Call.GetQueueInfo "gone"] ∧
    (newGetQueueHandlerFunc tableInspector.traced tableTransformer (requestFor "email")
        (tableStale, [])).2.2 = [Call.GetQueueInfo "email", Call.History "email" 10] :=
  ⟨(no_retries tableInspector tableTransformer encodeOk (requestFor "")
      tableStale).2.2.1.2.2 (.mk ["email", "gone", "image"]) tableStale ["email"] "gone"
      ["image"] [3] tableStale errNotFound tableStale rfl rfl
      (Succeeds.cons rfl (Succeeds.nil _)) rfl,
   (no_retries tableInspector tableTransformer encodeOk (requestFor "")
      tableStale).2.2.2.2.2 (.mk ["email", "gone", "image"]) tableStale ["email"] "gone"
      ["image"] [.mk [0, 1, 2]] tableStale errNotFound tableStale rfl rfl
      (Succeeds.cons rfl (Succeeds.nil _)) rfl,
   (no_retries tableInspector tableTransformer encodeOk (requestFor "gone")
      tableStale).2.1.1 errNotFound tableStale rfl,
   (no_retries tableInspector tableTransformer encodeOk (requestFor "email")
      tableStale).2.1.2 3 tableStale rfl⟩

/-- Claim C10. Empty results are shaped differently by the two handlers: when
get queue succeeds, the field "history" is the nil slice, written as JSON
`null`, if the inspector returned an empty history, and an allocated slice
otherwise; when list queues succeeds, the field "queues" is an allocated slice,
of length 0 and written as `[]` if the enumeration is empty. -/
theorem empty_results_shape (insp : Inspector σ I R) (t : transformer I R S D)
    (r : Request) (s : σ) :
    (∀ qinfo s1 data s2, insp.GetQueueInfo (r.Vars.index "qname") s = (.ok qinfo, s1) →
      insp.History (r.Vars.index "qname") 10 s1 = (.ok data, s2) →
      ∃ history : GoSlice D,
        newGetQueueHandlerFunc insp t r s
          = ([WriterOp.Encode (.object ⟨[
                ("current", .QueueStateSnapshot (t.toQueueStateSnapshot qinfo)),
                ("history", .DailyStatsSlice history)]⟩)], s2) ∧
        (data.len = 0 → history = .nil ∧ ∀ elem, history.toJSON elem = "null") ∧
        (data.len ≠ 0 → history.isNil = false ∧ history.len ≠ 0)) ∧
    (∀ names s1 infos s2, insp.Queues s = (.ok names, s1) →
      Succeeds insp.GetQueueInfo names.elems s1 infos s2 →
      ∃ snapshots : GoSlice (Option S),
        newListQueuesHandlerFunc insp t r s
          = ([WriterOp.Encode (.object ⟨[("queues", .QueueStateSnapshots snapshots)]⟩)], s2) ∧
        snapshots.isNil = false ∧
        snapshots.len = names.len ∧
        (names.len = 0 → snapshots = .mk [] ∧ ∀ elem, snapshots.toJSON elem = "[]")) := by
  constructor
  · intro qinfo s1 data s2 hinfo hhist
    refine ⟨dailyStatsLoop t data.elems .nil, ?_, ?_, ?_⟩
    · simp [newGetQueueHandlerFunc, hinfo, hhist, GoMap.set, GoMap.make, setEntries]
    · intro h0
      have : data.elems = [] := List.length_eq_zero.mp h0
      simp [this, dailyStatsLoop, GoSlice.toJSON]
    · intro h0
      have hne : data.elems ≠ [] := fun h => h0 (by simp [GoSlice.len, h])
      have hnil := dailyStatsLoop_isNil t data.elems .nil
      have helems := dailyStatsLoop_elems t data.elems .nil
      constructor
      · rw [hnil]
        cases hd : data.elems with
        | nil => exact absurd hd hne
        | cons x xs => simp
      · simp only [GoSlice.len, helems, List.length_append, List.length_map]
        have : data.elems.length ≠ 0 := h0
        omega
  · intro names s1 infos s2 hq hrun
    refine ⟨.mk (infos.map (fun x => some (t.toQueueStateSnapshot x))),
      newListQueuesHandlerFunc_ok insp t r hq hrun, rfl, ?_, ?_⟩
    · simp [GoSlice.len, GoSlice.elems, hrun.length_eq]
    · intro h0
      have : infos.length = 0 := by
        rw [hrun.length_eq]
        exact h0
      have : infos = [] := List.length_eq_zero.mp this
      subst this
      exact ⟨rfl, fun _ => rfl⟩

/-- Claim C10 on the table client: the queue `fresh` has no history and the
enumeration is empty, so "history" is the nil slice and "queues" the allocated
empty slice; the queue `email` of the two-queue store has history, so "history"
is allocated. -/
theorem empty_results_shape_witness :
    newGetQueueHandlerFunc tableInspector tableTransformer (requestFor "fresh") tableEmpty
      = ([WriterOp.Encode (.object ⟨[("current", .QueueStateSnapshot 100),
            ("history", .DailyStatsSlice .nil)]⟩)], tableEmpty) ∧
    newListQueuesHandlerFunc tableInspector tableTransformer (requestFor "fresh") tableEmpty
      = ([WriterOp.Encode (.object ⟨[("queues", .QueueStateSnapshots (.mk []))]⟩)],
          tableEmpty) ∧
    newGetQueueHandlerFunc tableInspector tableTransformer (requestFor "email") tableTwo
      = ([WriterOp.Encode (.object ⟨[("current", .QueueStateSnapshot 103),
            ("history", .DailyStatsSlice (.mk [1, 2, 3]))]⟩)], tableTwo) := by
  obtain ⟨history, h1, h2, _⟩ :=
    (empty_results_shape tableInspector tableTransformer (requestFor "fresh") tableEmpty).1
      0 tableEmpty (.mk []) tableEmpty rfl rfl
  obtain ⟨snapshots, h3, _, _, h4⟩ :=
    (empty_results_shape tableInspector tableTransformer (requestFor "fresh") tableEmpty).2
      (.mk []) tableEmpty [] tableEmpty rfl (Succeeds.nil _)
  refine ⟨?_, ?_, rfl⟩
  · rw [h1, (h2 rfl).1]
    rfl
  · rw [h3, (h4 rfl).1]

end Claims

end Asynqmon
